import Mathlib

/-!
Verification of the Ollama Python client library.

Python strings are modelled as lists of characters (`Str`); Python string
methods used by the code under verification (`str.strip`, `str.split`,
`str.startswith`, `str.endswith`, `str.isdigit`, `str.lower`, `str.upper`,
`str.replace(old, new, 1)`, substring membership, `str.join`) are embedded
as executable Lean functions with the same semantics on the inputs the
library manipulates.  JSON values are modelled by the inductive `JVal`;
fallible Python code is modelled with `Except`/`Option`.
-/

namespace OllamaClient

/-- A Python string, modelled as its list of characters. -/
abbrev Str := List Char

/-- The characters stripped by Python `str.strip()` with no argument
(ASCII whitespace). -/
def pyIsSpace (c : Char) : Bool :=
  c = ' ' || c = '\t' || c = '\n' || c = '\r' || c = '\x0b' || c = '\x0c'

/-- Python `s.strip()`: remove leading and trailing whitespace. -/
def pyStrip (s : Str) : Str :=
  ((s.dropWhile pyIsSpace).reverse.dropWhile pyIsSpace).reverse

/-- Python `s.split(sep)` for a one-character separator: split on every
occurrence, keeping empty parts. -/
def pySplitChar (sep : Char) : Str → List Str
  | [] => [[]]
  | c :: rest =>
    if c = sep then [] :: pySplitChar sep rest
    else
      match pySplitChar sep rest with
      | [] => [[c]]
      | t :: ts => (c :: t) :: ts

/-- Python `sep.join(parts)` for a one-character separator. -/
def joinChar (sep : Char) : List Str → Str
  | [] => []
  | [l] => l
  | l :: ls => l ++ sep :: joinChar sep ls

/-- Python `s.split(sep, 1)` for a one-character separator: a list of one
part (no separator present) or two parts (split at the first occurrence). -/
def pySplit1 (sep : Char) : Str → List Str
  | [] => [[]]
  | c :: rest =>
    if c = sep then [[], rest]
    else
      match pySplit1 sep rest with
      | [] => [[c]]
      | t :: ts => (c :: t) :: ts

/-- Python `s.startswith(p)`. -/
def pyStartsWith (p s : Str) : Bool := p.isPrefixOf s

/-- Python `s.endswith(p)`. -/
def pyEndsWith (p s : Str) : Bool := p.reverse.isPrefixOf s.reverse

/-- Python `sub in s`: substring membership. -/
def containsSub (pat : Str) : Str → Bool
  | [] => pat.isEmpty
  | c :: rest => pat.isPrefixOf (c :: rest) || containsSub pat rest

/-- Python `s.isdigit()` restricted to ASCII: non-empty and all decimal
digits (the only inputs the Modelfile codec feeds it). -/
def pyIsDigit (s : Str) : Bool :=
  !s.isEmpty && s.all (fun c => '0' ≤ c && c ≤ '9')

/-- Python `s.lower()` on ASCII characters. -/
def pyLowerChar (c : Char) : Char :=
  if 'A' ≤ c && c ≤ 'Z' then Char.ofNat (c.toNat + 32) else c

/-- Python `s.upper()` on ASCII characters. -/
def pyUpperChar (c : Char) : Char :=
  if 'a' ≤ c && c ≤ 'z' then Char.ofNat (c.toNat - 32) else c

def pyLower (s : Str) : Str := s.map pyLowerChar

def pyUpper (s : Str) : Str := s.map pyUpperChar

/-- Python `s.replace(old, "", 1)` for a one-character pattern: drop the
first occurrence of `old`. -/
def pyReplace1 (old : Char) : Str → Str
  | [] => []
  | c :: rest => if c = old then rest else c :: pyReplace1 old rest

/-- The decimal digit character of `d` (for `d < 10`). -/
def digChar : Nat → Char
  | 0 => '0' | 1 => '1' | 2 => '2' | 3 => '3' | 4 => '4'
  | 5 => '5' | 6 => '6' | 7 => '7' | 8 => '8' | 9 => '9'
  | _ => '?'

/-- The numeric value of a decimal digit character. -/
def charDig (c : Char) : Nat := c.toNat - 48

/-- Big-endian decimal digits of `n`, with structural fuel (`n` itself
bounds the number of divisions). -/
def natToStrAux : Nat → Nat → Str
  | 0, _ => []
  | fuel + 1, n => if n = 0 then [] else natToStrAux fuel (n / 10) ++ [digChar (n % 10)]

/-- Python `str(n)` for a natural number `n`. -/
def natToStr (n : Nat) : Str :=
  if n = 0 then ['0'] else natToStrAux n n

/-- Python `int(s)` on a string of decimal digits. -/
def strToNat (s : Str) : Nat :=
  s.foldl (fun a c => 10 * a + charDig c) 0

/-- Python `str(n)` for an integer `n`. -/
def intToStr (n : Int) : Str :=
  if n < 0 then '-' :: natToStr (-n).toNat else natToStr n.toNat

/-- A string whose first and last characters are not whitespace. -/
def noEdgeSpace (s : Str) : Prop :=
  (∀ c, s.head? = some c → pyIsSpace c = false) ∧
  (∀ c, s.getLast? = some c → pyIsSpace c = false)

instance (s : Str) : Decidable (noEdgeSpace s) := by
  unfold noEdgeSpace; infer_instance

/-- The triple-quote delimiter for multi-line Modelfile values. -/
def tq : Str := ['"', '"', '"']

/-- Strip one matching pair of surrounding double quotes
(Python `value[1:-1]` guarded by `startswith`/`endswith`). -/
def stripQuotes (s : Str) : Str :=
  if pyStartsWith ['"'] s && pyEndsWith ['"'] s then (s.drop 1).dropLast else s

/-!
## Modelfile codec (src/modelfile.py)

Parameter values may be Python booleans, integers, floats or strings.
Floating-point values are carried as their decimal literal text (`pfloat`):
the binary floating-point representation and Python float formatting are
outside this embedding, so the round-trip theorems are stated for the
boolean / integer / string cases.
-/

/-- A Modelfile parameter value (`Union[str, int, float, bool]`). -/
inductive PVal where
  | pbool (b : Bool)
  | pint (n : Int)
  | pfloat (lit : Str)
  | pstr (s : Str)

deriving DecidableEq, Repr

/-- A Modelfile license value (`Union[str, List[str]]`). -/
inductive LicVal where
  | single (s : Str)
  | multi (ls : List Str)

deriving DecidableEq, Repr

/-- The `Modelfile` builder state: `from_value`, `parameters` (a dict,
modelled as an insertion-ordered association list), `system`, `template`,
`license`, `adapters`, `messages`. -/
structure Modelfile where
  from_value : Str
  parameters : List (Str × PVal)
  system : Option Str
  template : Option Str
  license : Option LicVal
  adapters : List Str
  messages : List (Str × Str)

deriving DecidableEq, Repr

/-- `Modelfile.__init__(from_value)`. -/
def Modelfile.init (fv : Str) : Modelfile :=
  ⟨fv, [], none, none, none, [], []⟩

/-- Python dict assignment `d[k] = v` on an insertion-ordered
association list: update in place if the key exists, else append. -/
def dictSet {κ α : Type} [DecidableEq κ] (as : List (κ × α)) (k : κ) (v : α) :
    List (κ × α) :=
  match as with
  | [] => [(k, v)]
  | (k2, v2) :: rest =>
    if k2 = k then (k, v) :: rest else (k2, v2) :: dictSet rest k v

/-- `Modelfile.set_parameter`. -/
def Modelfile.set_parameter (mf : Modelfile) (name : Str) (v : PVal) : Modelfile :=
  { mf with parameters := dictSet mf.parameters name v }

/-- `Modelfile.set_system`. -/
def Modelfile.set_system (mf : Modelfile) (s : Str) : Modelfile :=
  { mf with system := some s }

/-- `Modelfile.set_template`. -/
def Modelfile.set_template (mf : Modelfile) (t : Str) : Modelfile :=
  { mf with template := some t }

/-- `Modelfile.set_license`. -/
def Modelfile.set_license (mf : Modelfile) (l : LicVal) : Modelfile :=
  { mf with license := some l }

/-- `Modelfile.add_adapter`. -/
def Modelfile.add_adapter (mf : Modelfile) (a : Str) : Modelfile :=
  { mf with adapters := mf.adapters ++ [a] }

/-- `Modelfile.add_message`. -/
def Modelfile.add_message (mf : Modelfile) (role content : Str) : Modelfile :=
  { mf with messages := mf.messages ++ [(role, content)] }

/-- `Modelfile._format_value`: booleans lowercase, numbers via `str`,
multi-line strings in triple-quote blocks, other strings quoted. -/
def formatValue : PVal → Str
  | .pbool b => if b then "true".toList else "false".toList
  | .pint n => intToStr n
  | .pfloat lit => lit
  | .pstr s =>
    if '\n' ∈ s then tq ++ '\n' :: (s ++ '\n' :: tq)
    else '"' :: (s ++ ['"'])

/-- Python truthiness of an `Optional[str]` field (`None` and `""` are falsy). -/
def truthyOptStr : Option Str → Bool
  | none => false
  | some s => !s.isEmpty

/-- Python truthiness of the `license` field. -/
def truthyLic : Option LicVal → Bool
  | none => false
  | some (.single s) => !s.isEmpty
  | some (.multi ls) => !ls.isEmpty

/-- The text serialized for the LICENSE directive (`"\n".join` for lists). -/
def licText : LicVal → Str
  | .single s => s
  | .multi ls => joinChar '\n' ls

/-- The list of lines built by `Modelfile.__str__`: FROM, PARAMETER lines,
TEMPLATE, SYSTEM, ADAPTER lines, LICENSE, MESSAGE lines, in that order. -/
def Modelfile.serializeLines (mf : Modelfile) : List Str :=
  ["FROM".toList ++ ' ' :: mf.from_value]
  ++ mf.parameters.map
      (fun p => "PARAMETER".toList ++ ' ' :: (p.1 ++ ' ' :: formatValue p.2))
  ++ (if truthyOptStr mf.template then
        ["TEMPLATE".toList ++ ' ' :: formatValue (.pstr (mf.template.getD []))]
      else [])
  ++ (if truthyOptStr mf.system then
        ["SYSTEM".toList ++ ' ' :: formatValue (.pstr (mf.system.getD []))]
      else [])
  ++ mf.adapters.map (fun a => "ADAPTER".toList ++ ' ' :: a)
  ++ (if truthyLic mf.license then
        ["LICENSE".toList ++ ' ' ::
          formatValue (.pstr (licText (mf.license.getD (.single []))))]
      else [])
  ++ mf.messages.map
      (fun m => "MESSAGE".toList ++ ' ' :: (m.1 ++ ' ' :: formatValue (.pstr m.2)))

/-- `Modelfile.__str__`: the serialized lines joined with newlines. -/
def Modelfile.toText (mf : Modelfile) : Str :=
  joinChar '\n' mf.serializeLines

/-- Parameter value coercion in `parse_modelfile`: boolean literal,
integer literal (`isdigit`), floating-point literal (`isdigit` after
removing one dot), else a string with optional surrounding quotes. -/
def parseParamVal (pv : Str) : PVal :=
  if pyLower pv = "true".toList then .pbool true
  else if pyLower pv = "false".toList then .pbool false
  else if pyIsDigit pv then .pint (strToNat pv)
  else if pyIsDigit (pyReplace1 '.' pv) then .pfloat pv
  else .pstr (stripQuotes pv)

/-- Intermediate state of the `parse_modelfile` scan loop. -/
structure PState where
  from_value : Option Str
  parameters : List (Str × PVal)
  system : Option Str
  template : Option Str
  license : Option Str
  adapters : List Str
  messages : List (Str × Str)

deriving DecidableEq, Repr

def PState.init : PState := ⟨none, [], none, none, none, [], []⟩

/-- Split a string around its first triple-quote occurrence. -/
def tqSplit : Str → Option (Str × Str)
  | [] => none
  | c :: rest =>
    if tq.isPrefixOf (c :: rest) then some ([], (c :: rest).drop 3)
    else
      match tqSplit rest with
      | some (b, a) => some (c :: b, a)
      | none => none

/-- The part of the opening line after the triple quote, as the initial
`value_lines` content (skipped when the triple quote ends the line). -/
def tqOpenSeg (args : Str) : List Str :=
  match tqSplit args with
  | some (_, a) => if a.isEmpty then [] else [a]
  | none => []

/-- The inner scan of the multi-line branch: collect lines until one
contains a triple quote (whose prefix before the quote is kept), and
return the lines remaining after the closing line. -/
def scanML : List Str → List Str × List Str
  | [] => ([], [])
  | l :: rest =>
    if containsSub tq l then
      (match tqSplit l with
       | some (b, _) => [b]
       | none => [l], rest)
    else
      let p := scanML rest
      (l :: p.1, p.2)

/-- One instruction dispatch of `parse_modelfile` (the `if`/`elif` chain
over the uppercased keyword). -/
def applyInstr (st : PState) (instruction args value : Str) : PState :=
  if instruction = "FROM".toList then { st with from_value := some value }
  else if instruction = "PARAMETER".toList then
    match pySplit1 ' ' args with
    | [name, pv] => { st with parameters := dictSet st.parameters name (parseParamVal pv) }
    | _ => st
  else if instruction = "SYSTEM".toList then { st with system := some value }
  else if instruction = "TEMPLATE".toList then { st with template := some value }
  else if instruction = "LICENSE".toList then { st with license := some value }
  else if instruction = "ADAPTER".toList then { st with adapters := st.adapters ++ [value] }
  else if instruction = "MESSAGE".toList then
    match pySplit1 ' ' args with
    | [role, content] =>
      { st with messages := st.messages ++ [(role, stripQuotes content)] }
    | _ => st
  else st

/-- The forward scan of `parse_modelfile` over the lines: skip blank and
comment lines, split each line into keyword and remainder, collect a
multi-line value when the remainder contains a triple quote, else use
the stripped remainder with optional quotes removed. -/
def parseLoop (st : PState) : List Str → PState
  | [] => st
  | l :: rest =>
    let line := pyStrip l
    if line.isEmpty || pyStartsWith ['#'] line then parseLoop st rest
    else
      match pySplit1 ' ' line with
      | [instr, args] =>
        if containsSub tq args then
          let p := scanML rest
          let value := joinChar '\n' (tqOpenSeg args ++ p.1)
          parseLoop (applyInstr st (pyUpper instr) args value) p.2
        else
          let value := stripQuotes (pyStrip args)
          parseLoop (applyInstr st (pyUpper instr) args value) rest
      | _ => parseLoop st rest
termination_by ls => ls.length
decreasing_by
  all_goals simp only [List.length_cons]
  all_goals
    first
      | exact Nat.lt_succ_self _
      | (have hb : ∀ ls2 : List Str, (scanML ls2).2.length ≤ ls2.length := by
           intro ls2
           induction ls2 with
           | nil => simp [scanML]
           | cons l2 rest2 ih =>
             by_cases hc : containsSub tq l2
             · simp [scanML, hc]
             · simp only [scanML, hc, Bool.false_eq_true, if_false]
               exact ih.trans (Nat.le_succ _)
         exact Nat.lt_succ_of_le (hb _))

/-- Rebuild the `Modelfile` from the scan state (the tail of
`parse_modelfile`): error when no FROM value was seen (or it is empty),
then apply the builder setters, honouring Python truthiness for the
optional fields. -/
def rebuildModelfile (st : PState) : Except String Modelfile :=
  match st.from_value with
  | none => .error "Modelfile must contain a FROM instruction"
  | some fv =>
    if fv.isEmpty then .error "Modelfile must contain a FROM instruction"
    else
      let mf := Modelfile.init fv
      let mf := st.parameters.foldl (fun m p => m.set_parameter p.1 p.2) mf
      let mf := match st.system with
        | some s => if s.isEmpty then mf else mf.set_system s
        | none => mf
      let mf := match st.template with
        | some t => if t.isEmpty then mf else mf.set_template t
        | none => mf
      let mf := match st.license with
        | some l => if l.isEmpty then mf else mf.set_license (.single l)
        | none => mf
      let mf := st.adapters.foldl (fun m a => m.add_adapter a) mf
      let mf := st.messages.foldl (fun m p => m.add_message p.1 p.2) mf
      .ok mf

/-- `parse_modelfile`: split the content into lines, run the scan, and
rebuild the document. -/
def parse_modelfile (content : Str) : Except String Modelfile :=
  rebuildModelfile (parseLoop PState.init (pySplitChar '\n' content))

instance {ε α : Type} [DecidableEq ε] [DecidableEq α] : DecidableEq (Except ε α)
  | .error e, .error f =>
    if h : e = f then .isTrue (by rw [h])
    else .isFalse (fun hh => h (by injection hh))
  | .error _, .ok _ => .isFalse (fun hh => Except.noConfusion hh)
  | .ok _, .error _ => .isFalse (fun hh => Except.noConfusion hh)
  | .ok a, .ok b =>
    if h : a = b then .isTrue (by rw [h])
    else .isFalse (fun hh => h (by injection hh))

/-!
### The class of documents for which the round trip is proved
-/

/-- A string value that survives quoting and re-parsing: single-line and
its quoted form contains no triple quote. -/
def safeStr (s : Str) : Prop :=
  '\n' ∉ s ∧ containsSub tq ('"' :: (s ++ ['"'])) = false

/-- A parameter name or message role: non-empty, single-line, without
spaces or quotes. -/
def goodName (r : Str) : Prop :=
  r ≠ [] ∧ ' ' ∉ r ∧ '\n' ∉ r ∧ '"' ∉ r

/-- A raw (unquoted) directive value such as FROM or ADAPTER: non-empty,
single-line, fixed by `strip` and quote-stripping, without triple quotes. -/
def goodRaw (s : Str) : Prop :=
  s ≠ [] ∧ '\n' ∉ s ∧ noEdgeSpace s ∧ stripQuotes s = s ∧ containsSub tq s = false

/-- A parameter value inside the proved round-trip class: booleans,
non-negative integers, or safe strings. -/
def goodPVal : PVal → Prop
  | .pbool _ => True
  | .pint n => 0 ≤ n
  | .pfloat _ => False
  | .pstr s => safeStr s

/-- An optional SYSTEM/TEMPLATE/LICENSE text: absent, or non-empty and safe. -/
def goodOptText : Option Str → Prop
  | none => True
  | some s => s ≠ [] ∧ safeStr s

/-- A license field inside the proved class: absent or a single string. -/
def goodLicense : Option LicVal → Prop
  | none => True
  | some (.single s) => s ≠ [] ∧ safeStr s
  | some (.multi _) => False

/-- The documents for which the round trip `parse(serialize(D)) = D`
is proved. -/
def GoodDoc (mf : Modelfile) : Prop :=
  goodRaw mf.from_value ∧
  (∀ p ∈ mf.parameters, goodName p.1 ∧ goodPVal p.2) ∧
  (mf.parameters.map Prod.fst).Nodup ∧
  goodOptText mf.system ∧
  goodOptText mf.template ∧
  goodLicense mf.license ∧
  (∀ a ∈ mf.adapters, goodRaw a) ∧
  (∀ m ∈ mf.messages, goodName m.1 ∧ safeStr m.2)

instance (s : Str) : Decidable (safeStr s) := by unfold safeStr; infer_instance

instance (r : Str) : Decidable (goodName r) := by unfold goodName; infer_instance

instance (s : Str) : Decidable (goodRaw s) := by unfold goodRaw; infer_instance

instance : (v : PVal) → Decidable (goodPVal v)
  | .pbool _ => .isTrue trivial
  | .pint n => inferInstanceAs (Decidable (0 ≤ n))
  | .pfloat _ => inferInstanceAs (Decidable False)
  | .pstr s => inferInstanceAs (Decidable (safeStr s))

instance : (o : Option Str) → Decidable (goodOptText o)
  | none => .isTrue trivial
  | some _s => inferInstanceAs (Decidable (_ ∧ _))

instance : (o : Option LicVal) → Decidable (goodLicense o)
  | none => .isTrue trivial
  | some (.single _) => inferInstanceAs (Decidable (_ ∧ _))
  | some (.multi _) => inferInstanceAs (Decidable False)

instance (mf : Modelfile) : Decidable (GoodDoc mf) := by
  unfold GoodDoc; infer_instance

/-- The value carried into the scan state by an optional quoted directive. -/
def optScan (o fb : Option Str) : Option Str :=
  match o with
  | some s => some s
  | none => fb

/-- The value carried into the scan state by the LICENSE directive. -/
def licScan (o : Option LicVal) (fb : Option Str) : Option Str :=
  match o with
  | some lv => some (licText lv)
  | none => fb

/-- A Modelfile with a negative integer parameter, built through the builder. -/
def negParamDoc : Modelfile :=
  (Modelfile.init "m".toList).set_parameter "p".toList (PVal.pint (-1))

/-- A document exercising every directive kind inside the proved class:
boolean, integer and string parameters, template, system, adapter,
license and message. -/
def demoDoc : Modelfile :=
  ((((((((Modelfile.init "llama3".toList).set_parameter "temperature".toList
    (PVal.pint 7)).set_parameter "penalize".toList
    (PVal.pbool true)).set_parameter "stop".toList
    (PVal.pstr "</s>".toList)).set_template "prompt template".toList).set_system
    "You are helpful.".toList).add_adapter "lora.bin".toList).set_license
    (LicVal.single "MIT".toList)).add_message "user".toList "hi there".toList

/-!
## JSON values and the standard decoder (`json.loads`)

Numbers are carried as exact rationals; this is sufficient for the
payloads the claims evaluate, which pass decoded values through
untouched.
-/

/-- A decoded JSON value.  Integer literals decode to Python ints
(`jint`); literals with a fraction or exponent decode to floats,
carried as exact rationals (`jflt`). -/
inductive JVal where
  | jnull
  | jbool (b : Bool)
  | jint (n : Int)
  | jflt (q : ℚ)
  | jstr (s : String)
  | jarr (elems : List JVal)
  | jobj (fields : List (String × JVal))

/-- Python truthiness of a decoded JSON value (`None`, `False`, `0`,
`""`, `[]`, and the empty dict are falsy). -/
def pyTruthy : JVal → Bool
  | .jnull => false
  | .jbool b => b
  | .jint n => n ≠ 0
  | .jflt q => q ≠ 0
  | .jstr s => !s.isEmpty
  | .jarr l => !l.isEmpty
  | .jobj f => !f.isEmpty

/-- JSON whitespace. -/
def jwsChar (c : Char) : Bool :=
  c = ' ' || c = '\t' || c = '\n' || c = '\r'

def skipWs (cs : List Char) : List Char := cs.dropWhile jwsChar

/-- The value of a hexadecimal digit. -/
def hexVal (c : Char) : Option Nat :=
  if '0' ≤ c && c ≤ '9' then some (c.toNat - 48)
  else if 'a' ≤ c && c ≤ 'f' then some (c.toNat - 87)
  else if 'A' ≤ c && c ≤ 'F' then some (c.toNat - 55)
  else none

/-- Modelled from the JSON string grammar used by `json.loads`: the body
of a quoted string up to the closing quote, decoding the standard
escapes; unescaped control characters and bad escapes are rejected. -/
def parseJString : Nat → List Char → Option (List Char × List Char)
  | 0, _ => none
  | fuel + 1, cs =>
    match cs with
    | [] => none
    | '"' :: rest => some ([], rest)
    | '\\' :: esc =>
      match esc with
      | 'u' :: h1 :: h2 :: h3 :: h4 :: rest => do
        let d1 ← hexVal h1
        let d2 ← hexVal h2
        let d3 ← hexVal h3
        let d4 ← hexVal h4
        let (body, rest2) ← parseJString fuel rest
        pure (Char.ofNat (((d1 * 16 + d2) * 16 + d3) * 16 + d4) :: body, rest2)
      | e :: rest => do
        let c ← match e with
          | '"' => some '"'
          | '\\' => some '\\'
          | '/' => some '/'
          | 'n' => some '\n'
          | 't' => some '\t'
          | 'r' => some '\r'
          | 'b' => some '\x08'
          | 'f' => some '\x0c'
          | _ => none
        let (body, rest2) ← parseJString fuel rest
        pure (c :: body, rest2)
      | [] => none
    | c :: rest =>
      if c.toNat < 32 then none
      else do
        let (body, rest2) ← parseJString fuel rest
        pure (c :: body, rest2)

/-- A run of decimal digits and the remainder. -/
def spanDigits (cs : List Char) : List Char × List Char :=
  (cs.takeWhile (fun c => '0' ≤ c && c ≤ '9'),
   cs.dropWhile (fun c => '0' ≤ c && c ≤ '9'))

/-- The fraction/exponent tail of a JSON float literal. -/
def parseJFloat (neg : Bool) (ids : List Char) (cs2 : List Char) :
    Option (JVal × List Char) := do
  let intPart : ℚ := (strToNat ids : ℚ)
  let (fracNum, fracDen, cs3) ← match cs2 with
    | '.' :: t =>
      let p := spanDigits t
      if p.1.isEmpty then none
      else some ((strToNat p.1 : ℚ), (10 : ℚ) ^ p.1.length, p.2)
    | _ => some ((0 : ℚ), (1 : ℚ), cs2)
  let (expo, cs4) ← match cs3 with
    | e :: t =>
      if e = 'e' || e = 'E' then
        let (esign, t2) := match t with
          | '+' :: u => ((1 : Int), u)
          | '-' :: u => ((-1 : Int), u)
          | _ => ((1 : Int), t)
        let p := spanDigits t2
        if p.1.isEmpty then none
        else some (esign * (strToNat p.1 : Int), p.2)
      else some ((0 : Int), cs3)
    | [] => some ((0 : Int), cs3)
  let base : ℚ := intPart + fracNum / fracDen
  let signed : ℚ := if neg then -base else base
  pure (.jflt (signed * (10 : ℚ) ^ expo), cs4)

/-- Modelled from the JSON number grammar used by `json.loads`:
`-? int frac? exp?` with a strict integer part (no leading zeros).  A
bare integer literal decodes to a Python int; a literal with a fraction
or exponent decodes to a float, evaluated exactly as a rational. -/
def parseJNumber (cs : List Char) : Option (JVal × List Char) := do
  let (neg, cs1) := match cs with
    | '-' :: t => (true, t)
    | _ => (false, cs)
  let (ids, cs2) ← match cs1 with
    | '0' :: t => some (['0'], t)
    | c :: _ =>
      if '1' ≤ c && c ≤ '9' then
        let p := spanDigits cs1
        some (p.1, p.2)
      else none
    | [] => none
  match cs2 with
  | '.' :: _ => parseJFloat neg ids cs2
  | 'e' :: _ => parseJFloat neg ids cs2
  | 'E' :: _ => parseJFloat neg ids cs2
  | _ =>
    let n : Int := Int.ofNat (strToNat ids)
    pure (.jint (if neg then -n else n), cs2)

mutual

/-- Modelled from `json.loads`: one JSON value and the remaining input. -/
def parseJVal : Nat → List Char → Option (JVal × List Char)
  | 0, _ => none
  | fuel + 1, cs =>
    match skipWs cs with
    | [] => none
    | c :: rest =>
      if c = '{' then
        match skipWs rest with
        | '}' :: rest2 => some (.jobj [], rest2)
        | _ => do
          let (fields, rest2) ← parseJMembers fuel (skipWs rest) []
          pure (.jobj fields, rest2)
      else if c = '[' then
        match skipWs rest with
        | ']' :: rest2 => some (.jarr [], rest2)
        | _ => do
          let (elems, rest2) ← parseJElems fuel (skipWs rest)
          pure (.jarr elems, rest2)
      else if c = '"' then do
        let (body, rest2) ← parseJString fuel rest
        pure (.jstr (String.mk body), rest2)
      else if c = 't' then
        if ['r', 'u', 'e'].isPrefixOf rest then some (.jbool true, rest.drop 3)
        else none
      else if c = 'f' then
        if ['a', 'l', 's', 'e'].isPrefixOf rest then some (.jbool false, rest.drop 4)
        else none
      else if c = 'n' then
        if ['u', 'l', 'l'].isPrefixOf rest then some (.jnull, rest.drop 3)
        else none
      else parseJNumber (c :: rest)

/-- The members of a JSON object after the opening brace (first key
expected next); duplicate keys overwrite in place, as `dict` does. -/
def parseJMembers : Nat → List Char → List (String × JVal) →
    Option (List (String × JVal) × List Char)
  | 0, _, _ => none
  | fuel + 1, cs, acc =>
    match skipWs cs with
    | '"' :: rest => do
      let (key, rest2) ← parseJString fuel rest
      match skipWs rest2 with
      | ':' :: rest3 => do
        let (v, rest4) ← parseJVal fuel rest3
        let acc2 := dictSet acc (String.mk key) v
        match skipWs rest4 with
        | ',' :: rest5 => parseJMembers fuel rest5 acc2
        | '}' :: rest5 => some (acc2, rest5)
        | _ => none
      | _ => none
    | _ => none

/-- The elements of a JSON array after the opening bracket (first
element expected next). -/
def parseJElems : Nat → List Char → Option (List JVal × List Char)
  | 0, _ => none
  | fuel + 1, cs => do
    let (v, rest) ← parseJVal fuel cs
    match skipWs rest with
    | ',' :: rest2 => do
      let (vs, rest3) ← parseJElems fuel rest2
      pure (v :: vs, rest3)
    | ']' :: rest2 => some ([v], rest2)
    | _ => none

end

/-- Modelled from Python `json.loads`: decode one JSON document,
requiring only trailing whitespace after it; `none` is the
`JSONDecodeError` outcome. -/
def json_loads (s : String) : Option JVal := do
  let (v, rest) ← parseJVal (2 * s.toList.length + 2) s.toList
  if (skipWs rest).isEmpty then pure v else none

/-!
## Streaming decoder (src/streaming.py)
-/

/-- `StreamProcessor.__iter__` over the response lines, with the global
handler unset (its default): skip empty lines, decode each line with
`json.loads`, yield the object on success, skip the line on
`JSONDecodeError`.  The handler invocation is a side effect only and
does not change the yielded sequence. -/
def streamIter : List String → List JVal
  | [] => []
  | l :: ls =>
    if l.isEmpty then streamIter ls
    else
      match json_loads l with
      | some v => v :: streamIter ls
      | none => streamIter ls

/-- The module-level names defined or imported in `streaming.py`: the
`typing` imports, `json`, `httpx`, `ABC`, `abstractmethod`, and the three
classes the module itself defines.  `OllamaError` is not among them. -/
def streamingModuleGlobals : List String :=
  ["Dict", "Any", "Iterator", "AsyncIterator", "Callable", "Protocol", "Union",
   "Optional", "json", "httpx", "ABC", "abstractmethod",
   "StreamHandler", "StreamProcessor", "AsyncStreamProcessor"]

/-- A raised Python exception, as far as the error-path claims need. -/
inductive PyRaise where
  | nameError (name : String)
  | ollamaError (msg : String)

deriving DecidableEq, Repr

/-- The `except Exception` branch of `StreamProcessor.__iter__`
(`raise OllamaError(f"Error processing stream: ...")`): evaluating the
`raise` first resolves the name `OllamaError` in the module scope; an
unresolved name raises `NameError` instead. -/
def streamErrorBranch (excMsg : String) : PyRaise :=
  if "OllamaError" ∈ streamingModuleGlobals then
    .ollamaError ("Error processing stream: " ++ excMsg)
  else .nameError "OllamaError"

/-- The same branch of `AsyncStreamProcessor.__aiter__`. -/
def asyncStreamErrorBranch (excMsg : String) : PyRaise :=
  if "OllamaError" ∈ streamingModuleGlobals then
    .ollamaError ("Error processing async stream: " ++ excMsg)
  else .nameError "OllamaError"

/-!
## Response model layer (src/models.py)

Payload fields hold whatever JSON value the server sent — the
dataclasses do not enforce field types — so record fields are `JVal`.
Absent keys become the Python defaults: `""` is `jstr ""`, `False` is
`jbool false`, `None` is `jnull`.
-/

/-- The Python exceptions the mapping layer can raise: `.get` on a
non-dict raises `AttributeError`. -/
inductive PyErr where
  | attributeError

deriving DecidableEq, Repr

/-- Key lookup in a decoded JSON object. -/
def lookupField (fs : List (String × JVal)) (k : String) : Option JVal :=
  match fs with
  | [] => none
  | (k2, v) :: rest => if k2 = k then some v else lookupField rest k

/-- Python `data.get(k, default)` on a decoded JSON object. -/
def jget (fs : List (String × JVal)) (k : String) (dflt : JVal) : JVal :=
  (lookupField fs k).getD dflt

/-- The `Message` dataclass. -/
structure MessageRec where
  role : JVal
  content : JVal
  images : JVal
  tool_calls : JVal

/-- `Message.from_dict`: `.get` with defaults on a dict; `.get` on any
other value raises `AttributeError`. -/
def Message.from_dict : JVal → Except PyErr MessageRec
  | .jobj fs =>
    .ok ⟨jget fs "role" (.jstr ""), jget fs "content" (.jstr ""),
         jget fs "images" .jnull, jget fs "tool_calls" .jnull⟩
  | _ => .error .attributeError

/-- `Message.to_dict`: role and content always, images and tool_calls
only when truthy. -/
def MessageRec.to_dict (m : MessageRec) : JVal :=
  .jobj ([("role", m.role), ("content", m.content)]
    ++ (if pyTruthy m.images then [("images", m.images)] else [])
    ++ (if pyTruthy m.tool_calls then [("tool_calls", m.tool_calls)] else []))

/-- The `GenerateResponse` dataclass. -/
structure GenerateResponseRec where
  model : JVal
  created_at : JVal
  response : JVal
  done : JVal
  done_reason : JVal
  context : JVal
  total_duration : JVal
  load_duration : JVal
  prompt_eval_count : JVal
  prompt_eval_duration : JVal
  eval_count : JVal
  eval_duration : JVal

/-- `GenerateResponse.from_dict`. -/
def GenerateResponse.from_dict : JVal → Except PyErr GenerateResponseRec
  | .jobj fs =>
    .ok ⟨jget fs "model" (.jstr ""), jget fs "created_at" .jnull,
         jget fs "response" (.jstr ""), jget fs "done" (.jbool false),
         jget fs "done_reason" .jnull, jget fs "context" .jnull,
         jget fs "total_duration" .jnull, jget fs "load_duration" .jnull,
         jget fs "prompt_eval_count" .jnull, jget fs "prompt_eval_duration" .jnull,
         jget fs "eval_count" .jnull, jget fs "eval_duration" .jnull⟩
  | _ => .error .attributeError

/-- The `ChatResponse` dataclass. -/
structure ChatResponseRec where
  model : JVal
  created_at : JVal
  message : Option MessageRec
  done : JVal
  done_reason : JVal
  total_duration : JVal
  load_duration : JVal
  prompt_eval_count : JVal
  prompt_eval_duration : JVal
  eval_count : JVal
  eval_duration : JVal

/-- `ChatResponse.from_dict`: `message = Message.from_dict(data["message"])`
when the key is present (raising whatever that raises), else `None`. -/
def ChatResponse.from_dict : JVal → Except PyErr ChatResponseRec
  | .jobj fs =>
    match lookupField fs "message" with
    | some mv =>
      match Message.from_dict mv with
      | .ok m =>
        .ok ⟨jget fs "model" (.jstr ""), jget fs "created_at" .jnull, some m,
             jget fs "done" (.jbool false), jget fs "done_reason" .jnull,
             jget fs "total_duration" .jnull, jget fs "load_duration" .jnull,
             jget fs "prompt_eval_count" .jnull, jget fs "prompt_eval_duration" .jnull,
             jget fs "eval_count" .jnull, jget fs "eval_duration" .jnull⟩
      | .error e => .error e
    | none =>
      .ok ⟨jget fs "model" (.jstr ""), jget fs "created_at" .jnull, none,
           jget fs "done" (.jbool false), jget fs "done_reason" .jnull,
           jget fs "total_duration" .jnull, jget fs "load_duration" .jnull,
           jget fs "prompt_eval_count" .jnull, jget fs "prompt_eval_duration" .jnull,
           jget fs "eval_count" .jnull, jget fs "eval_duration" .jnull⟩
  | _ => .error .attributeError

/-- The `EmbedResponse` dataclass. -/
structure EmbedResponseRec where
  model : JVal
  embeddings : JVal
  total_duration : JVal
  load_duration : JVal
  prompt_eval_count : JVal

/-- `EmbedResponse.from_dict`: accept both the singular `embedding` key
and the plural `embeddings` key, wrapping the singular vector when the
plural value is falsy. -/
def EmbedResponse.from_dict : JVal → Except PyErr EmbedResponseRec
  | .jobj fs =>
    let e0 := jget fs "embeddings" (.jarr [])
    let e1 :=
      if !pyTruthy e0 then
        match lookupField fs "embedding" with
        | some v => .jarr [v]
        | none => e0
      else e0
    .ok ⟨jget fs "model" (.jstr ""), e1, jget fs "total_duration" .jnull,
         jget fs "load_duration" .jnull, jget fs "prompt_eval_count" .jnull⟩
  | _ => .error .attributeError

/-- All four mapping functions succeed on the object payload `fs`, and
every recognized key that is absent yields its safe default. -/
def mappingsTotalWithDefaults (fs : List (String × JVal)) : Prop :=
  (∃ m, Message.from_dict (.jobj fs) = .ok m ∧
      (lookupField fs "role" = none → m.role = .jstr "") ∧
      (lookupField fs "content" = none → m.content = .jstr "") ∧
      (lookupField fs "images" = none → m.images = .jnull) ∧
      (lookupField fs "tool_calls" = none → m.tool_calls = .jnull)) ∧
  (∃ g, GenerateResponse.from_dict (.jobj fs) = .ok g ∧
      (lookupField fs "model" = none → g.model = .jstr "") ∧
      (lookupField fs "created_at" = none → g.created_at = .jnull) ∧
      (lookupField fs "response" = none → g.response = .jstr "") ∧
      (lookupField fs "done" = none → g.done = .jbool false) ∧
      (lookupField fs "done_reason" = none → g.done_reason = .jnull) ∧
      (lookupField fs "context" = none → g.context = .jnull) ∧
      (lookupField fs "total_duration" = none → g.total_duration = .jnull) ∧
      (lookupField fs "load_duration" = none → g.load_duration = .jnull) ∧
      (lookupField fs "prompt_eval_count" = none → g.prompt_eval_count = .jnull) ∧
      (lookupField fs "prompt_eval_duration" = none → g.prompt_eval_duration = .jnull) ∧
      (lookupField fs "eval_count" = none → g.eval_count = .jnull) ∧
      (lookupField fs "eval_duration" = none → g.eval_duration = .jnull)) ∧
  (∃ c, ChatResponse.from_dict (.jobj fs) = .ok c ∧
      (lookupField fs "message" = none → c.message = none) ∧
      (lookupField fs "model" = none → c.model = .jstr "") ∧
      (lookupField fs "done" = none → c.done = .jbool false)) ∧
  (∃ e, EmbedResponse.from_dict (.jobj fs) = .ok e ∧
      (lookupField fs "model" = none → e.model = .jstr "") ∧
      (lookupField fs "embeddings" = none → lookupField fs "embedding" = none →
        e.embeddings = .jarr []))

/-!
## Request dispatcher error mapping (src/client.py `_request`,
src/exceptions.py)
-/

/-- The `OllamaError` exception taxonomy, one constructor per class. -/
inductive OllamaErr where
  | baseError (msg : String)
  | requestError (msg : String)
  | responseError (msg : String)
  | modelNotFoundError (msg : String)
  | connectionError (msg : String)

deriving DecidableEq, Repr

/-- Python `str()` of a decoded JSON value, as used by f-string
interpolation.  Exact for the strings, booleans, None and ints the error
path can see; float and container renderings are placeholders the
theorems never rely on. -/
def pyStrJ : JVal → String
  | .jstr s => s
  | .jnull => "None"
  | .jbool true => "True"
  | .jbool false => "False"
  | .jint n => String.mk (intToStr n)
  | .jflt _ => "<float>"
  | .jarr _ => "<list>"
  | .jobj _ => "<dict>"

/-- The `except httpx.HTTPStatusError` branch of `Ollama._request`:
404 raises `OllamaModelNotFoundError`; any other error status raises
`OllamaRequestError` whose message carries the body's JSON `error`
field when the body is a JSON object with that key (a non-object body
or a missing key leaves `str(e)`, the raw status text, in place —
subscripting a non-dict raises inside the bare `except` and is
swallowed). -/
def handleStatusError (status : Nat) (body : String) (statusText : String) :
    OllamaErr :=
  if status = 404 then .modelNotFoundError ("Model not found: " ++ statusText)
  else
    let errMsg : String :=
      match json_loads body with
      | some (.jobj fs) =>
        match lookupField fs "error" with
        | some v => pyStrJ v
        | none => statusText
      | _ => statusText
    .requestError ("HTTP error: " ++ errMsg)

/-- The buffered (non-streaming) path of `Ollama._request` after the
HTTP call returns: `raise_for_status` raises for 4xx/5xx (handled by
`handleStatusError`), 204/201 return an empty dict, otherwise the JSON
body is returned (a body that fails to decode surfaces as the catch-all
`OllamaError`). -/
def bufferedRequest (status : Nat) (body : String) (statusText : String) :
    Except OllamaErr JVal :=
  if 400 ≤ status ∧ status < 600 then
    .error (handleStatusError status body statusText)
  else if status = 204 ∨ status = 201 then .ok (.jobj [])
  else
    match json_loads body with
    | some v => .ok v
    | none => .error (.baseError ("Unexpected error: " ++ statusText))

/-- The body's JSON `error` field, when the body is a JSON object. -/
def errField (body : String) : Option JVal :=
  match json_loads body with
  | some (.jobj fs) => lookupField fs "error"
  | _ => none

/-- `Ollama.copy`, parameterized by the outcome of the underlying
`_request` call: `try` / `except OllamaError: return False`. -/
def copy (outcome : Except OllamaErr JVal) : Bool :=
  match outcome with
  | .ok _ => true
  | .error _ => false

/-- `Ollama.delete`, same shape as `copy`. -/
def delete (outcome : Except OllamaErr JVal) : Bool :=
  match outcome with
  | .ok _ => true
  | .error _ => false

/-- `Ollama.blob_exists`, same shape as `copy`. -/
def blob_exists (outcome : Except OllamaErr JVal) : Bool :=
  match outcome with
  | .ok _ => true
  | .error _ => false

/-!
## Conversation history store (src/client.py `Ollama.chat`, stream=False)

Messages are the role/content dicts the store holds (text chat, no
images or tool calls); structural equality of those dicts is equality of
the records.
-/

/-- A chat message dict as stored in `_conversations`. -/
structure ChatMsg where
  role : String
  content : String

deriving DecidableEq, Repr

/-- Association-list lookup (Python `d[k]` / `k in d`). -/
def alookup {κ α : Type} [DecidableEq κ] : List (κ × α) → κ → Option α
  | [], _ => none
  | (k2, v) :: rest, k => if k2 = k then some v else alookup rest k

/-- Lines 515–517 of `Ollama.chat`: merge the supplied messages into the
stored entry, appending each message not already present by structural
equality, preserving arrival order. -/
def dedupMerge (hist : List ChatMsg) (msgs : List ChatMsg) : List ChatMsg :=
  msgs.foldl (fun h m => if m ∈ h then h else h ++ [m]) hist

/-- The conversation key `f"{model}-{id(messages)}"`: model name plus the
identity of the caller's message list object. -/
def convKey (model : String) (pyId : Nat) : String :=
  model ++ "-" ++ toString pyId

/-- `Ollama.chat` with `stream=False`, at the conversation-store level:
ensure the entry exists, dedup-merge the prepared messages, and append
the assistant message of the response (when the response carries one). -/
def chatNoStream (conversations : List (String × List ChatMsg)) (model : String)
    (pyId : Nat) (msgs : List ChatMsg) (reply : Option ChatMsg) :
    List (String × List ChatMsg) :=
  let cid := convKey model pyId
  let conversations :=
    if (alookup conversations cid).isNone then dictSet conversations cid []
    else conversations
  let hist := (alookup conversations cid).getD []
  let hist := dedupMerge hist msgs
  let hist :=
    match reply with
    | some m => hist ++ [m]
    | none => hist
  dictSet conversations cid hist

/-!
## Streaming chat terminal handling (src/client.py `Ollama.chat`,
stream=True, `process_responses`)
-/

/-- The last frame on the wire whose done flag is truthy. -/
def lastDoneFrame (frames : List ChatResponseRec) : Option ChatResponseRec :=
  (frames.filter (fun r => pyTruthy r.done)).getLast?

/-- The generator body `process_responses`, over the decoded frames:
non-done frames are yielded as they arrive; a done frame replaces
`final_response` without being yielded; after the loop, when a final
response with a message exists, its message dict is appended to the
conversation entry and the final response is yielded.  Returns the
yielded frames and the list of message dicts appended to the
conversation. -/
def processResponses (frames : List ChatResponseRec) :
    List ChatResponseRec × List JVal :=
  let p := frames.foldl
    (fun acc r => if pyTruthy r.done then (acc.1, some r) else (acc.1 ++ [r], acc.2))
    (([] : List ChatResponseRec), (none : Option ChatResponseRec))
  match p.2 with
  | some fr =>
    match fr.message with
    | some m => (p.1 ++ [fr], [m.to_dict])
    | none => (p.1, [])
  | none => (p.1, [])

/-!
## Theorems
-/

theorem charDig_digChar {d : Nat} (h : d < 10) : charDig (digChar d) = d := by
  interval_cases d <;> rfl

theorem natToStrAux_zero (fuel : Nat) : natToStrAux fuel 0 = [] := by
  cases fuel <;> rfl

theorem natToStrAux_eq (fuel n : Nat) (h1 : 0 < n) (h2 : n ≤ fuel) :
    natToStrAux fuel n = ((Nat.digits 10 n).map digChar).reverse := by
  induction fuel generalizing n with
  | zero => omega
  | succ f ih =>
    rw [natToStrAux, if_neg (Nat.pos_iff_ne_zero.mp h1),
      Nat.digits_def' (by norm_num : 1 < 10) h1]
    simp only [List.map_cons, List.reverse_cons]
    by_cases hq : n / 10 = 0
    · rw [hq, natToStrAux_zero]
      simp
    · rw [ih (n / 10) (Nat.pos_of_ne_zero hq)]
      have := Nat.div_lt_self h1 (by norm_num : 1 < 10)
      omega

theorem natToStr_eq_digits (n : Nat) :
    natToStr n = if n = 0 then ['0'] else ((Nat.digits 10 n).map digChar).reverse := by
  unfold natToStr
  by_cases h0 : n = 0
  · simp [h0]
  · rw [if_neg h0, if_neg h0, natToStrAux_eq n n (Nat.pos_of_ne_zero h0) (le_refl n)]

theorem digChar_isDigitChar {d : Nat} (h : d < 10) :
    '0' ≤ digChar d ∧ digChar d ≤ '9' := by
  interval_cases d <;> exact ⟨by decide, by decide⟩

theorem strToNat_append (s t : Str) :
    strToNat (s ++ t) = strToNat s * 10 ^ t.length + strToNat t := by
  induction t using List.reverseRecOn with
  | nil => simp [strToNat]
  | append_singleton t c ih =>
    simp only [strToNat, List.foldl_append, List.foldl_cons, List.foldl_nil,
      ← List.append_assoc] at *
    rw [ih]
    simp [List.length_append, pow_succ]
    ring

theorem strToNat_natToStr (n : Nat) : strToNat (natToStr n) = n := by
  rw [natToStr_eq_digits]
  by_cases h0 : n = 0
  · simp [h0, strToNat, charDig]
  · simp only [h0, if_false]
    have key : ∀ ds : List Nat, (∀ d ∈ ds, d < 10) →
        strToNat ((ds.map digChar).reverse) = Nat.ofDigits 10 ds := by
      intro ds hds
      induction ds with
      | nil => simp [strToNat, Nat.ofDigits]
      | cons d ds ih =>
        simp only [List.map_cons, List.reverse_cons]
        rw [strToNat_append, ih (fun x hx => hds x (List.mem_cons_of_mem d hx))]
        have hd : d < 10 := hds d (List.mem_cons_self d ds)
        have h1 : strToNat [digChar d] = d := by
          simp [strToNat, charDig_digChar hd]
        simp only [List.length_singleton, pow_one, Nat.ofDigits_cons, h1]
        ring
    rw [key (Nat.digits 10 n) (fun d hd => Nat.digits_lt_base (by norm_num) hd),
      Nat.ofDigits_digits]

theorem natToStr_all_digits (n : Nat) :
    ∀ c ∈ natToStr n, '0' ≤ c ∧ c ≤ '9' := by
  intro c hc
  rw [natToStr_eq_digits] at hc
  by_cases h0 : n = 0
  · simp [h0] at hc
    subst hc; exact ⟨le_refl _, by decide⟩
  · simp only [h0, if_false, List.mem_reverse, List.mem_map] at hc
    obtain ⟨d, hd, rfl⟩ := hc
    exact digChar_isDigitChar (Nat.digits_lt_base (by norm_num) hd)

theorem natToStr_ne_nil (n : Nat) : natToStr n ≠ [] := by
  rw [natToStr_eq_digits]
  by_cases h0 : n = 0
  · simp [h0]
  · simp only [h0, if_false, ne_eq, List.reverse_eq_nil_iff, List.map_eq_nil_iff]
    exact Nat.digits_ne_nil_iff_ne_zero.mpr h0

theorem pyIsDigit_natToStr (n : Nat) : pyIsDigit (natToStr n) = true := by
  unfold pyIsDigit
  rw [Bool.and_eq_true, List.all_eq_true]
  constructor
  · simpa [List.isEmpty_iff] using natToStr_ne_nil n
  · intro c hc
    have := natToStr_all_digits n c hc
    simp [this.1, this.2]

theorem pySplitChar_no_sep {sep : Char} {s : Str} (h : sep ∉ s) :
    pySplitChar sep s = [s] := by
  induction s with
  | nil => rfl
  | cons c rest ih =>
    have hc : ¬c = sep := fun hcs => h (hcs ▸ List.mem_cons_self c rest)
    have hr : sep ∉ rest := fun hm => h (List.mem_cons_of_mem c hm)
    simp only [pySplitChar, if_neg hc, ih hr]

theorem pySplitChar_append {sep : Char} {l : Str} (rest : Str) (h : sep ∉ l) :
    pySplitChar sep (l ++ sep :: rest) = l :: pySplitChar sep rest := by
  induction l with
  | nil => simp [pySplitChar]
  | cons c cl ih =>
    have hc : ¬c = sep := fun hcs => h (hcs ▸ List.mem_cons_self c cl)
    have hl : sep ∉ cl := fun hm => h (List.mem_cons_of_mem c hm)
    simp only [List.cons_append, pySplitChar, if_neg hc, List.append_eq, ih hl]

theorem pySplitChar_joinChar {sep : Char} {ls : List Str} (hne : ls ≠ [])
    (h : ∀ l ∈ ls, sep ∉ l) :
    pySplitChar sep (joinChar sep ls) = ls := by
  induction ls with
  | nil => exact absurd rfl hne
  | cons l ls ih =>
    cases ls with
    | nil => exact pySplitChar_no_sep (h l (List.mem_cons_self l []))
    | cons l2 ls2 =>
      have h1 : sep ∉ l := h l (List.mem_cons_self l _)
      have h2 : ∀ x ∈ l2 :: ls2, sep ∉ x := fun x hx => h x (List.mem_cons_of_mem l hx)
      show pySplitChar sep (l ++ sep :: joinChar sep (l2 :: ls2)) = _
      rw [pySplitChar_append _ h1, ih (by simp) h2]

theorem pySplit1_no_sep {sep : Char} {s : Str} (h : sep ∉ s) :
    pySplit1 sep s = [s] := by
  induction s with
  | nil => rfl
  | cons c rest ih =>
    have hc : ¬c = sep := fun hcs => h (hcs ▸ List.mem_cons_self c rest)
    have hr : sep ∉ rest := fun hm => h (List.mem_cons_of_mem c hm)
    simp only [pySplit1, if_neg hc, ih hr]

theorem pySplit1_append {sep : Char} {w : Str} (r : Str) (h : sep ∉ w) :
    pySplit1 sep (w ++ sep :: r) = [w, r] := by
  induction w with
  | nil => simp [pySplit1]
  | cons c cl ih =>
    have hc : ¬c = sep := fun hcs => h (hcs ▸ List.mem_cons_self c cl)
    have hl : sep ∉ cl := fun hm => h (List.mem_cons_of_mem c hm)
    simp only [List.cons_append, pySplit1, if_neg hc, List.append_eq, ih hl]

theorem dropWhile_eq_self_of_head {p : Char → Bool} {s : Str}
    (h : ∀ c, s.head? = some c → p c = false) : s.dropWhile p = s := by
  cases s with
  | nil => rfl
  | cons c rest =>
    rw [List.dropWhile_cons, if_neg]
    simp [h c rfl]

theorem pyStrip_eq_self {s : Str} (h : noEdgeSpace s) : pyStrip s = s := by
  unfold pyStrip
  rw [dropWhile_eq_self_of_head h.1, dropWhile_eq_self_of_head, List.reverse_reverse]
  intro c hc
  exact h.2 c (by rwa [← List.head?_reverse])

theorem containsSub_tq_append {a b : Str} (ha : '"' ∉ a)
    (hb : containsSub tq b = false) : containsSub tq (a ++ b) = false := by
  induction a with
  | nil => simpa using hb
  | cons c cl ih =>
    have hc : ¬c = '"' := fun hq => ha (hq ▸ List.mem_cons_self c cl)
    have hl : '"' ∉ cl := fun hm => ha (List.mem_cons_of_mem c hm)
    simp only [List.cons_append, containsSub, Bool.or_eq_false_iff]
    refine ⟨?_, ih hl⟩
    show (tq.isPrefixOf (c :: (cl ++ b))) = false
    have hbeq : ('"' == c) = false := beq_eq_false_iff_ne.mpr (fun hq => hc hq.symm)
    simp [tq, List.isPrefixOf, hbeq]

theorem containsSub_tq_of_no_quote {s : Str} (h : '"' ∉ s) :
    containsSub tq s = false := by
  have := containsSub_tq_append (a := s) (b := []) h rfl
  simpa using this

theorem stripQuotes_quoted (s : Str) : stripQuotes ('"' :: (s ++ ['"'])) = s := by
  unfold stripQuotes
  have h1 : pyStartsWith ['"'] ('"' :: (s ++ ['"'])) = true := by
    simp [pyStartsWith, List.isPrefixOf]
  have h2 : pyEndsWith ['"'] ('"' :: (s ++ ['"'])) = true := by
    simp [pyEndsWith, List.isPrefixOf]
  rw [h1, h2]
  simp [List.dropLast_concat]

theorem scanML_snd_length (ls : List Str) : (scanML ls).2.length ≤ ls.length := by
  induction ls with
  | nil => simp [scanML]
  | cons l rest ih =>
    by_cases h : containsSub tq l
    · simp [scanML, h]
    · simp only [scanML, h, if_neg, Bool.false_eq_true, if_false]
      exact ih.trans (Nat.le_succ _)

/-!
### Round-trip lemmas
-/

theorem pyLowerChar_digit {c : Char} (h : '0' ≤ c ∧ c ≤ '9') :
    pyLowerChar c = c := by
  unfold pyLowerChar
  rw [if_neg]
  intro hc
  rw [Bool.and_eq_true, decide_eq_true_eq, decide_eq_true_eq] at hc
  exact absurd (le_trans hc.1 h.2) (by decide)

theorem pyLower_digits {s : Str} (h : ∀ c ∈ s, '0' ≤ c ∧ c ≤ '9') :
    pyLower s = s := by
  induction s with
  | nil => rfl
  | cons c cs ih =>
    have h1 := pyLowerChar_digit (h c (List.mem_cons_self c cs))
    have h2 := ih (fun x hx => h x (List.mem_cons_of_mem c hx))
    simp only [pyLower, List.map_cons] at h2 ⊢
    rw [h1, h2]

theorem parseParamVal_formatValue {v : PVal} (h : goodPVal v) :
    parseParamVal (formatValue v) = v := by
  match v with
  | .pbool true => decide
  | .pbool false => decide
  | .pfloat lit => exact absurd h (by simp [goodPVal])
  | .pint n =>
    have hn : ¬n < 0 := not_lt.mpr h
    have hfmt : formatValue (.pint n) = natToStr n.toNat := by
      simp [formatValue, intToStr, hn]
    have hdig := natToStr_all_digits n.toNat
    have hlow : pyLower (natToStr n.toNat) = natToStr n.toNat := pyLower_digits hdig
    have hnt : pyLower (natToStr n.toNat) ≠ "true".toList := by
      rw [hlow]
      intro heq
      have : 't' ∈ natToStr n.toNat := by rw [heq]; decide
      exact absurd (hdig 't' this) (by decide)
    have hnf : pyLower (natToStr n.toNat) ≠ "false".toList := by
      rw [hlow]
      intro heq
      have : 'f' ∈ natToStr n.toNat := by rw [heq]; decide
      exact absurd (hdig 'f' this) (by decide)
    rw [hfmt]
    unfold parseParamVal
    rw [if_neg hnt, if_neg hnf, if_pos (pyIsDigit_natToStr n.toNat)]
    rw [strToNat_natToStr, PVal.pint.injEq]
    exact_mod_cast Int.toNat_of_nonneg h
  | .pstr s =>
    obtain ⟨hnl, htq⟩ := h
    have hfmt : formatValue (.pstr s) = '"' :: (s ++ ['"']) := by
      simp [formatValue, hnl]
    rw [hfmt]
    unfold parseParamVal
    have hlowq : pyLower ('"' :: (s ++ ['"'])) = '"' :: pyLower (s ++ ['"']) := by
      simp [pyLower, pyLowerChar]
    rw [if_neg, if_neg, if_neg, if_neg]
    · exact congrArg PVal.pstr (stripQuotes_quoted s)
    · show ¬pyIsDigit (pyReplace1 '.' ('"' :: (s ++ ['"']))) = true
      have : pyReplace1 '.' ('"' :: (s ++ ['"'])) = '"' :: pyReplace1 '.' (s ++ ['"']) := by
        simp [pyReplace1]
      rw [this]
      simp [pyIsDigit]
    · show ¬pyIsDigit ('"' :: (s ++ ['"'])) = true
      simp [pyIsDigit]
    · rw [hlowq]; intro heq
      have := List.head_eq_of_cons_eq heq
      exact absurd this (by decide)
    · rw [hlowq]; intro heq
      have := List.head_eq_of_cons_eq heq
      exact absurd this (by decide)

theorem getLast?_append_right {α : Type} {a b : List α} (hb : b ≠ []) :
    (a ++ b).getLast? = b.getLast? := by
  rw [← List.head?_reverse, ← List.head?_reverse, List.reverse_append]
  cases hbr : b.reverse with
  | nil => exact absurd (by simpa using hbr) hb
  | cons x xs => simp

/-- Processing one serialized single-line directive advances the scan by
one dispatched instruction. -/
theorem parseLoop_step (st : PState) (kw args : Str) (rest : List Str)
    (hkw : kw ≠ []) (hkwsp : ' ' ∉ kw)
    (hhd : ∀ c, kw.head? = some c → pyIsSpace c = false ∧ c ≠ '#')
    (hane : args ≠ [])
    (hlast : ∀ c, args.getLast? = some c → pyIsSpace c = false)
    (htq : containsSub tq args = false) :
    parseLoop st ((kw ++ ' ' :: args) :: rest) =
      parseLoop (applyInstr st (pyUpper kw) args (stripQuotes (pyStrip args))) rest := by
  obtain ⟨c, kw2, rfl⟩ : ∃ c kw2, kw = c :: kw2 := by
    cases kw with
    | nil => exact absurd rfl hkw
    | cons c k => exact ⟨c, k, rfl⟩
  have hc := hhd c rfl
  have hstrip : pyStrip ((c :: kw2) ++ ' ' :: args) = (c :: kw2) ++ ' ' :: args := by
    apply pyStrip_eq_self
    constructor
    · intro x hx
      simp only [List.cons_append, List.head?_cons, Option.some.injEq] at hx
      rw [← hx]; exact hc.1
    · intro x hx
      rw [getLast?_append_right (by simp)] at hx
      have : (' ' :: args).getLast? = args.getLast? := by
        have := getLast?_append_right (a := [' ']) (b := args) hane
        simpa using this
      rw [this] at hx
      exact hlast x hx
  have hempty : ((c :: kw2) ++ ' ' :: args).isEmpty = false := rfl
  have hhash : pyStartsWith ['#'] ((c :: kw2) ++ ' ' :: args) = false := by
    simp only [pyStartsWith, List.cons_append, List.isPrefixOf, Bool.and_eq_false_iff]
    left
    exact beq_eq_false_iff_ne.mpr (fun h => hc.2 h.symm)
  have hsplit : pySplit1 ' ' ((c :: kw2) ++ ' ' :: args) = [c :: kw2, args] :=
    pySplit1_append args hkwsp
  rw [parseLoop]
  simp only [hstrip, hempty, hhash, Bool.or_self, Bool.false_eq_true, if_false, hsplit, htq]

theorem mem_of_getLast?_eq_some {l : Str} {c : Char} (h : l.getLast? = some c) :
    c ∈ l := by
  obtain ⟨hne, heq⟩ := List.mem_getLast?_eq_getLast (Option.mem_def.mpr h)
  rw [heq]
  exact List.getLast_mem hne

theorem pyIsSpace_of_digit {c : Char} (h0 : '0' ≤ c) (_h9 : c ≤ '9') :
    pyIsSpace c = false := by
  unfold pyIsSpace
  have key : ∀ x : Char, x < '0' → c ≠ x := by
    intro x hx he
    rw [he] at h0
    exact absurd (lt_of_lt_of_le hx h0) (lt_irrefl x)
  have h1 := key ' ' (by decide)
  have h2 := key '\t' (by decide)
  have h3 := key '\n' (by decide)
  have h4 := key '\r' (by decide)
  have h5 := key '\x0b' (by decide)
  have h6 := key '\x0c' (by decide)
  simp [h1, h2, h3, h4, h5, h6]

theorem head_cond_of_cons {c : Char} {t : Str} (h1 : pyIsSpace c = false) (h2 : c ≠ '#') :
    ∀ x, (c :: t).head? = some x → pyIsSpace x = false ∧ x ≠ '#' := by
  intro x hx
  simp only [List.head?_cons, Option.some.injEq] at hx
  rw [← hx]
  exact ⟨h1, h2⟩

theorem quoted_getLast (s : Str) :
    ∀ c, ('"' :: (s ++ ['"'])).getLast? = some c → pyIsSpace c = false := by
  intro c hc
  have h1 : ('"' :: (s ++ ['"'])).getLast? = some '"' := by
    show (['"'] ++ (s ++ ['"'])).getLast? = some '"'
    rw [getLast?_append_right (by simp), getLast?_append_right (by simp)]
    rfl
  rw [h1, Option.some.injEq] at hc
  rw [← hc]
  rfl

theorem quoted_pyStrip (s : Str) :
    pyStrip ('"' :: (s ++ ['"'])) = '"' :: (s ++ ['"']) := by
  apply pyStrip_eq_self
  constructor
  · intro x hx
    simp only [List.head?_cons, Option.some.injEq] at hx
    rw [← hx]; rfl
  · exact quoted_getLast s

theorem quoted_value_eq {s : Str} :
    stripQuotes (pyStrip ('"' :: (s ++ ['"']))) = s := by
  rw [quoted_pyStrip, stripQuotes_quoted]

/-- The FROM line sets the scanned `from_value`. -/
theorem parseLoop_from (st : PState) {fv : Str} (rest : List Str) (h : goodRaw fv) :
    parseLoop st (("FROM".toList ++ ' ' :: fv) :: rest) =
      parseLoop { st with from_value := some fv } rest := by
  obtain ⟨hne, _hnl, hedge, hsq, htq⟩ := h
  rw [parseLoop_step st "FROM".toList fv rest (by decide) (by decide)
        (head_cond_of_cons (by decide) (by decide)) hne hedge.2 htq]
  have hval : stripQuotes (pyStrip fv) = fv := by rw [pyStrip_eq_self hedge, hsq]
  rw [hval]
  rfl

/-- A PARAMETER line with a well-formed name splits into name and value. -/
theorem applyInstr_param (st : PState) (name fmt value : Str) (hname : ' ' ∉ name) :
    applyInstr st "PARAMETER".toList (name ++ ' ' :: fmt) value =
      { st with parameters := dictSet st.parameters name (parseParamVal fmt) } := by
  unfold applyInstr
  rw [if_neg (by decide), if_pos rfl, pySplit1_append fmt hname]

/-- A serialized PARAMETER line updates the scanned parameter dict. -/
theorem parseLoop_param (st : PState) {name : Str} {v : PVal} (rest : List Str)
    (hname : goodName name) (hv : goodPVal v) :
    parseLoop st (("PARAMETER".toList ++ ' ' :: (name ++ ' ' :: formatValue v)) :: rest) =
      parseLoop { st with parameters := dictSet st.parameters name v } rest := by
  obtain ⟨hne, hsp, hnl, hq⟩ := hname
  have hargsne : name ++ ' ' :: formatValue v ≠ [] := by
    cases name <;> simp
  have hfmtne : formatValue v ≠ [] := by
    match v, hv with
    | .pbool b, _ => cases b <;> decide
    | .pint n, h =>
      simp only [formatValue, intToStr, if_neg (not_lt.mpr h)]
      exact natToStr_ne_nil _
    | .pstr s, h =>
      simp only [formatValue, if_neg h.1]
      simp
  have hlast : ∀ c, (name ++ ' ' :: formatValue v).getLast? = some c →
      pyIsSpace c = false := by
    intro c hc
    rw [getLast?_append_right (by simp)] at hc
    have h2 : (' ' :: formatValue v).getLast? = (formatValue v).getLast? := by
      have := getLast?_append_right (a := [' ']) (b := formatValue v) hfmtne
      simpa using this
    rw [h2] at hc
    match v, hv with
    | .pbool b, _ =>
      cases b with
      | false =>
        rw [show (formatValue (.pbool false)).getLast? = some 'e' from by decide,
          Option.some.injEq] at hc
        rw [← hc]; rfl
      | true =>
        rw [show (formatValue (.pbool true)).getLast? = some 'e' from by decide,
          Option.some.injEq] at hc
        rw [← hc]; rfl
    | .pint n, h =>
      simp only [formatValue, intToStr, if_neg (not_lt.mpr h)] at hc
      have hb := natToStr_all_digits n.toNat c (mem_of_getLast?_eq_some hc)
      exact pyIsSpace_of_digit hb.1 hb.2
    | .pstr s, h =>
      simp only [formatValue, if_neg h.1] at hc
      exact quoted_getLast s c hc
  have htq : containsSub tq (name ++ ' ' :: formatValue v) = false := by
    have hq2 : '"' ∉ name ++ [' '] := by
      intro hm
      rcases List.mem_append.mp hm with hm | hm
      · exact hq hm
      · simp at hm
    have hfq : containsSub tq (formatValue v) = false := by
      match v, hv with
      | .pbool b, _ => cases b <;> decide
      | .pint n, h =>
        apply containsSub_tq_of_no_quote
        intro hm
        simp only [formatValue, intToStr, if_neg (not_lt.mpr h)] at hm
        exact absurd (natToStr_all_digits n.toNat '"' hm) (by decide)
      | .pstr s, h =>
        simp only [formatValue, if_neg h.1]
        exact h.2
    have := containsSub_tq_append hq2 hfq
    simpa using this
  rw [parseLoop_step st "PARAMETER".toList _ rest (by decide) (by decide)
        (head_cond_of_cons (by decide) (by decide)) hargsne hlast htq]
  rw [show pyUpper "PARAMETER".toList = "PARAMETER".toList from by decide]
  rw [applyInstr_param st name (formatValue v) _ hsp,
    parseParamVal_formatValue hv]

/-- A serialized quoted TEMPLATE line sets the scanned template. -/
theorem parseLoop_template (st : PState) {s : Str} (rest : List Str) (hs : safeStr s) :
    parseLoop st (("TEMPLATE".toList ++ ' ' :: ('"' :: (s ++ ['"']))) :: rest) =
      parseLoop { st with template := some s } rest := by
  rw [parseLoop_step st "TEMPLATE".toList _ rest (by decide) (by decide)
        (head_cond_of_cons (by decide) (by decide)) (by simp) (quoted_getLast s) hs.2]
  rw [quoted_value_eq]
  rfl

/-- A serialized quoted SYSTEM line sets the scanned system prompt. -/
theorem parseLoop_system (st : PState) {s : Str} (rest : List Str) (hs : safeStr s) :
    parseLoop st (("SYSTEM".toList ++ ' ' :: ('"' :: (s ++ ['"']))) :: rest) =
      parseLoop { st with system := some s } rest := by
  rw [parseLoop_step st "SYSTEM".toList _ rest (by decide) (by decide)
        (head_cond_of_cons (by decide) (by decide)) (by simp) (quoted_getLast s) hs.2]
  rw [quoted_value_eq]
  rfl

/-- A serialized quoted LICENSE line sets the scanned license text. -/
theorem parseLoop_license (st : PState) {s : Str} (rest : List Str) (hs : safeStr s) :
    parseLoop st (("LICENSE".toList ++ ' ' :: ('"' :: (s ++ ['"']))) :: rest) =
      parseLoop { st with license := some s } rest := by
  rw [parseLoop_step st "LICENSE".toList _ rest (by decide) (by decide)
        (head_cond_of_cons (by decide) (by decide)) (by simp) (quoted_getLast s) hs.2]
  rw [quoted_value_eq]
  rfl

/-- A serialized ADAPTER line appends to the scanned adapter list. -/
theorem parseLoop_adapter (st : PState) {a : Str} (rest : List Str) (h : goodRaw a) :
    parseLoop st (("ADAPTER".toList ++ ' ' :: a) :: rest) =
      parseLoop { st with adapters := st.adapters ++ [a] } rest := by
  obtain ⟨hne, _hnl, hedge, hsq, htq⟩ := h
  rw [parseLoop_step st "ADAPTER".toList a rest (by decide) (by decide)
        (head_cond_of_cons (by decide) (by decide)) hne hedge.2 htq]
  have hval : stripQuotes (pyStrip a) = a := by rw [pyStrip_eq_self hedge, hsq]
  rw [hval]
  rfl

/-- A MESSAGE line with a well-formed role splits into role and content. -/
theorem applyInstr_message (st : PState) (role content value : Str) (hrole : ' ' ∉ role) :
    applyInstr st "MESSAGE".toList (role ++ ' ' :: content) value =
      { st with messages := st.messages ++ [(role, stripQuotes content)] } := by
  unfold applyInstr
  rw [if_neg (by decide), if_neg (by decide), if_neg (by decide), if_neg (by decide),
    if_neg (by decide), if_neg (by decide), if_pos rfl, pySplit1_append content hrole]

/-- A serialized MESSAGE line appends to the scanned message list. -/
theorem parseLoop_message (st : PState) {r c : Str} (rest : List Str)
    (hr : goodName r) (hc : safeStr c) :
    parseLoop st (("MESSAGE".toList ++ ' ' :: (r ++ ' ' :: ('"' :: (c ++ ['"'])))) :: rest) =
      parseLoop { st with messages := st.messages ++ [(r, c)] } rest := by
  obtain ⟨hne, hsp, _hnl, hq⟩ := hr
  have hargsne : r ++ ' ' :: ('"' :: (c ++ ['"'])) ≠ [] := by
    cases r <;> simp
  have hlast : ∀ x, (r ++ ' ' :: ('"' :: (c ++ ['"']))).getLast? = some x →
      pyIsSpace x = false := by
    intro x hx
    rw [getLast?_append_right (by simp)] at hx
    have h2 : (' ' :: ('"' :: (c ++ ['"']))).getLast? = ('"' :: (c ++ ['"'])).getLast? :=
      getLast?_append_right (a := [' ']) (b := '"' :: (c ++ ['"'])) (by simp)
    rw [h2] at hx
    exact quoted_getLast c x hx
  have htq : containsSub tq (r ++ ' ' :: ('"' :: (c ++ ['"']))) = false := by
    have hq2 : '"' ∉ r ++ [' '] := by
      intro hm
      rcases List.mem_append.mp hm with hm | hm
      · exact hq hm
      · simp at hm
    have := containsSub_tq_append hq2 hc.2
    simpa using this
  rw [parseLoop_step st "MESSAGE".toList _ rest (by decide) (by decide)
        (head_cond_of_cons (by decide) (by decide)) hargsne hlast htq]
  rw [show pyUpper "MESSAGE".toList = "MESSAGE".toList from by decide]
  rw [applyInstr_message st r _ _ hsp, stripQuotes_quoted]

/-!
### Dict and builder fold lemmas
-/

theorem dictSet_fresh {α : Type} {as : List (Str × α)} {k : Str} (v : α)
    (h : k ∉ as.map Prod.fst) : dictSet as k v = as ++ [(k, v)] := by
  induction as with
  | nil => rfl
  | cons p rest ih =>
    rw [List.map_cons] at h
    have hk : ¬p.1 = k := fun he => h (he ▸ List.mem_cons_self _ _)
    have hr : k ∉ rest.map Prod.fst := fun hm => h (List.mem_cons_of_mem _ hm)
    cases p with
    | mk k2 v2 =>
      simp only [dictSet, if_neg hk, List.cons_append, List.cons.injEq, true_and]
      exact ih hr

theorem foldl_dictSet {α : Type} (ps : List (Str × α)) (d : List (Str × α))
    (hnd : (ps.map Prod.fst).Nodup)
    (hdisj : ∀ p ∈ ps, p.1 ∉ d.map Prod.fst) :
    ps.foldl (fun acc p => dictSet acc p.1 p.2) d = d ++ ps := by
  induction ps generalizing d with
  | nil => simp
  | cons p rest ih =>
    rw [List.map_cons] at hnd
    have hnd2 := List.nodup_cons.mp hnd
    simp only [List.foldl_cons]
    rw [dictSet_fresh p.2 (hdisj p (List.mem_cons_self p rest))]
    rw [ih (d ++ [(p.1, p.2)]) hnd2.2]
    · simp
    · intro q hq
      rw [List.map_append, List.mem_append]
      intro hc
      rcases hc with hc | hc
      · exact hdisj q (List.mem_cons_of_mem p hq) hc
      · have hqp : q.1 = p.1 := by
          simp only [List.map_cons, List.map_nil, List.mem_singleton] at hc
          exact hc
        exact hnd2.1 (hqp ▸ List.mem_map_of_mem Prod.fst hq)

theorem foldl_set_parameter (ps : List (Str × PVal)) (m0 : Modelfile) :
    ps.foldl (fun m p => m.set_parameter p.1 p.2) m0 =
      { m0 with parameters := ps.foldl (fun d p => dictSet d p.1 p.2) m0.parameters } := by
  induction ps generalizing m0 with
  | nil => rfl
  | cons p rest ih =>
    simp only [List.foldl_cons]
    rw [ih]
    rfl

theorem foldl_add_adapter (as : List Str) (m0 : Modelfile) :
    as.foldl (fun m a => m.add_adapter a) m0 =
      { m0 with adapters := m0.adapters ++ as } := by
  induction as generalizing m0 with
  | nil => simp
  | cons a rest ih =>
    simp only [List.foldl_cons]
    rw [ih]
    simp [Modelfile.add_adapter]

theorem foldl_add_message (ms : List (Str × Str)) (m0 : Modelfile) :
    ms.foldl (fun m p => m.add_message p.1 p.2) m0 =
      { m0 with messages := m0.messages ++ ms } := by
  induction ms generalizing m0 with
  | nil => simp
  | cons p rest ih =>
    simp only [List.foldl_cons]
    rw [ih]
    simp [Modelfile.add_message]

/-!
### Segment lemmas: a whole block of serialized lines at once
-/

theorem parseLoop_params_seg (st : PState) (ps : List (Str × PVal)) (rest : List Str)
    (h : ∀ p ∈ ps, goodName p.1 ∧ goodPVal p.2) :
    parseLoop st
      ((ps.map fun p => "PARAMETER".toList ++ ' ' :: (p.1 ++ ' ' :: formatValue p.2)) ++ rest) =
      parseLoop { st with parameters := ps.foldl (fun d p => dictSet d p.1 p.2) st.parameters }
        rest := by
  induction ps generalizing st with
  | nil => rfl
  | cons p pr ih =>
    have hp := h p (List.mem_cons_self p pr)
    simp only [List.map_cons, List.cons_append, List.foldl_cons]
    rw [parseLoop_param st _ hp.1 hp.2]
    exact ih _ (fun q hq => h q (List.mem_cons_of_mem p hq))

theorem parseLoop_adapters_seg (st : PState) (as : List Str) (rest : List Str)
    (h : ∀ a ∈ as, goodRaw a) :
    parseLoop st ((as.map fun a => "ADAPTER".toList ++ ' ' :: a) ++ rest) =
      parseLoop { st with adapters := st.adapters ++ as } rest := by
  induction as generalizing st with
  | nil => simp
  | cons a ar ih =>
    simp only [List.map_cons, List.cons_append]
    rw [parseLoop_adapter st _ (h a (List.mem_cons_self a ar))]
    rw [ih _ (fun x hx => h x (List.mem_cons_of_mem a hx))]
    simp

theorem parseLoop_msgs_seg (st : PState) (ms : List (Str × Str)) (rest : List Str)
    (h : ∀ m ∈ ms, goodName m.1 ∧ safeStr m.2) :
    parseLoop st
      ((ms.map fun m => "MESSAGE".toList ++ ' ' :: (m.1 ++ ' ' :: formatValue (.pstr m.2)))
        ++ rest) =
      parseLoop { st with messages := st.messages ++ ms } rest := by
  induction ms generalizing st with
  | nil => simp
  | cons m mr ih =>
    have hm := h m (List.mem_cons_self m mr)
    have hfmt : formatValue (.pstr m.2) = '"' :: (m.2 ++ ['"']) := by
      simp [formatValue, hm.2.1]
    simp only [List.map_cons, List.cons_append, hfmt]
    rw [parseLoop_message st _ hm.1 hm.2]
    rw [ih _ (fun x hx => h x (List.mem_cons_of_mem m hx))]
    simp

theorem parseLoop_tpl_seg (st : PState) (rest : List Str) {o : Option Str}
    (h : goodOptText o) :
    parseLoop st
      ((if truthyOptStr o then
          ["TEMPLATE".toList ++ ' ' :: formatValue (.pstr (o.getD []))] else []) ++ rest) =
      parseLoop { st with template := optScan o st.template } rest := by
  cases o with
  | none => rfl
  | some s =>
    have hne : s.isEmpty = false := by
      cases s with
      | nil => exact absurd rfl h.1
      | cons c cs => rfl
    have hfmt : formatValue (.pstr s) = '"' :: (s ++ ['"']) := by
      simp [formatValue, h.2.1]
    simp only [truthyOptStr, hne, Bool.not_false, if_pos, Option.getD_some, hfmt,
      List.cons_append, List.nil_append]
    exact parseLoop_template st rest h.2

theorem parseLoop_sys_seg (st : PState) (rest : List Str) {o : Option Str}
    (h : goodOptText o) :
    parseLoop st
      ((if truthyOptStr o then
          ["SYSTEM".toList ++ ' ' :: formatValue (.pstr (o.getD []))] else []) ++ rest) =
      parseLoop { st with system := optScan o st.system } rest := by
  cases o with
  | none => rfl
  | some s =>
    have hne : s.isEmpty = false := by
      cases s with
      | nil => exact absurd rfl h.1
      | cons c cs => rfl
    have hfmt : formatValue (.pstr s) = '"' :: (s ++ ['"']) := by
      simp [formatValue, h.2.1]
    simp only [truthyOptStr, hne, Bool.not_false, if_pos, Option.getD_some, hfmt,
      List.cons_append, List.nil_append]
    exact parseLoop_system st rest h.2

theorem parseLoop_lic_seg (st : PState) (rest : List Str) {o : Option LicVal}
    (h : goodLicense o) :
    parseLoop st
      ((if truthyLic o then
          ["LICENSE".toList ++ ' ' ::
            formatValue (.pstr (licText (o.getD (.single []))))] else []) ++ rest) =
      parseLoop { st with license := licScan o st.license } rest := by
  cases o with
  | none => rfl
  | some lv =>
    cases lv with
    | multi ls => exact absurd h (by simp [goodLicense])
    | single s =>
      have hne : s.isEmpty = false := by
        cases s with
        | nil => exact absurd rfl h.1
        | cons c cs => rfl
      have hfmt : formatValue (.pstr s) = '"' :: (s ++ ['"']) := by
        simp [formatValue, h.2.1]
      simp only [truthyLic, hne, Bool.not_false, if_pos, Option.getD_some, licText, hfmt,
        List.cons_append, List.nil_append]
      exact parseLoop_license st rest h.2

/-!
### No serialized line contains an embedded newline
-/

theorem noNl_natToStr (n : Nat) : '\n' ∉ natToStr n :=
  fun hm => absurd (natToStr_all_digits n '\n' hm) (by decide)

theorem noNl_quoted {s : Str} (h : '\n' ∉ s) : '\n' ∉ '"' :: (s ++ ['"']) := by
  intro hm
  rcases List.mem_cons.mp hm with he | hm2
  · exact absurd he (by decide)
  · rcases List.mem_append.mp hm2 with h3 | h3
    · exact h h3
    · rw [List.mem_singleton] at h3
      exact absurd h3 (by decide)

theorem noNl_formatValue {v : PVal} (h : goodPVal v) : '\n' ∉ formatValue v := by
  match v, h with
  | .pbool b, _ => cases b <;> decide
  | .pint n, h =>
    simp only [formatValue, intToStr, if_neg (not_lt.mpr h)]
    exact noNl_natToStr _
  | .pstr s, h =>
    simp only [formatValue, if_neg h.1]
    exact noNl_quoted h.1

theorem noNl_append_cons {a b : Str} (ha : '\n' ∉ a) (hb : '\n' ∉ b) :
    '\n' ∉ a ++ ' ' :: b := by
  intro hm
  rcases List.mem_append.mp hm with h1 | h1
  · exact ha h1
  · rcases List.mem_cons.mp h1 with h2 | h2
    · exact absurd h2 (by decide)
    · exact hb h2

theorem forall_mem_if_singleton {c : Prop} [Decidable c] {x : Str}
    (hx : '\n' ∉ x) : ∀ l ∈ (if c then [x] else ([] : List Str)), '\n' ∉ l := by
  intro l hl
  split at hl
  · rw [List.mem_singleton] at hl
    rw [hl]
    exact hx
  · simp at hl

theorem noNl_optSegLine {kw : Str} (hkw : '\n' ∉ kw) {o : Option Str}
    (ho : goodOptText o) : '\n' ∉ kw ++ ' ' :: formatValue (.pstr (o.getD [])) := by
  cases o with
  | none => exact noNl_append_cons hkw (noNl_formatValue (v := .pstr []) ⟨by simp, by decide⟩)
  | some s => exact noNl_append_cons hkw (noNl_formatValue (v := .pstr s) ho.2)

theorem noNl_licSegLine {kw : Str} (hkw : '\n' ∉ kw) {o : Option LicVal}
    (ho : goodLicense o) :
    '\n' ∉ kw ++ ' ' :: formatValue (.pstr (licText (o.getD (.single [])))) := by
  cases o with
  | none => exact noNl_append_cons hkw (noNl_formatValue (v := .pstr []) ⟨by simp, by decide⟩)
  | some lv =>
    cases lv with
    | multi ls => exact absurd ho (by simp [goodLicense])
    | single s => exact noNl_append_cons hkw (noNl_formatValue (v := .pstr s) ho.2)

theorem noNl_serializeLines {mf : Modelfile} (h : GoodDoc mf) :
    ∀ l ∈ mf.serializeLines, '\n' ∉ l := by
  obtain ⟨hfv, hps, _hnd, hsys, htpl, hlic, hads, hmsgs⟩ := h
  intro l hl
  unfold Modelfile.serializeLines at hl
  simp only [List.append_assoc, List.singleton_append] at hl
  rcases List.mem_cons.mp hl with rfl | hl
  · exact noNl_append_cons (by decide) hfv.2.1
  rcases List.mem_append.mp hl with hseg | hl
  · obtain ⟨p, hp, rfl⟩ := List.mem_map.mp hseg
    exact noNl_append_cons (by decide)
      (noNl_append_cons (hps p hp).1.2.2.1 (noNl_formatValue (hps p hp).2))
  rcases List.mem_append.mp hl with hseg | hl
  · exact forall_mem_if_singleton (noNl_optSegLine (by decide) htpl) l hseg
  rcases List.mem_append.mp hl with hseg | hl
  · exact forall_mem_if_singleton (noNl_optSegLine (by decide) hsys) l hseg
  rcases List.mem_append.mp hl with hseg | hl
  · obtain ⟨a, ha, rfl⟩ := List.mem_map.mp hseg
    exact noNl_append_cons (by decide) (hads a ha).2.1
  rcases List.mem_append.mp hl with hseg | hl
  · exact forall_mem_if_singleton (noNl_licSegLine (by decide) hlic) l hseg
  · obtain ⟨m, hm, rfl⟩ := List.mem_map.mp hl
    exact noNl_append_cons (by decide)
      (noNl_append_cons (hmsgs m hm).1.2.2.1 (noNl_formatValue (hmsgs m hm).2))

theorem parseLoop_nil (st : PState) : parseLoop st [] = st := by
  rw [parseLoop]

/-- Rebuilding from the scan state of a serialized good document recovers
the document. -/
theorem rebuild_of_scan (fv : Str) (ps : List (Str × PVal)) (sys tpl : Option Str)
    (lic : Option LicVal) (ads : List Str) (msgs : List (Str × Str))
    (hfv : fv ≠ []) (hnd : (ps.map Prod.fst).Nodup)
    (hsys : goodOptText sys) (htpl : goodOptText tpl) (hlic : goodLicense lic) :
    rebuildModelfile ⟨some fv, ps, optScan sys none, optScan tpl none,
      licScan lic none, ads, msgs⟩ = Except.ok ⟨fv, ps, sys, tpl, lic, ads, msgs⟩ := by
  have hfe : fv.isEmpty = false := by
    cases fv with
    | nil => exact absurd rfl hfv
    | cons c cs => rfl
  have hfold : ps.foldl (fun d p => dictSet d p.1 p.2) ([] : List (Str × PVal)) = ps := by
    have := foldl_dictSet ps [] hnd (by simp)
    simpa using this
  unfold rebuildModelfile
  simp only [hfe, Bool.false_eq_true, if_false]
  rw [foldl_set_parameter, foldl_add_adapter, foldl_add_message]
  cases sys with
  | none =>
    cases tpl with
    | none =>
      cases lic with
      | none =>
        simp [optScan, licScan, Modelfile.init, Modelfile.set_parameter, hfold]
      | some lv =>
        cases lv with
        | multi ls => exact absurd hlic (by simp [goodLicense])
        | single s =>
          have hse : s.isEmpty = false := by
            cases s with
            | nil => exact absurd rfl hlic.1
            | cons c cs => rfl
          simp [optScan, licScan, licText, hse, Modelfile.init, Modelfile.set_parameter,
            Modelfile.set_license, hfold]
    | some t =>
      have hte : t.isEmpty = false := by
        cases t with
        | nil => exact absurd rfl htpl.1
        | cons c cs => rfl
      cases lic with
      | none =>
        simp [optScan, licScan, hte, Modelfile.init, Modelfile.set_parameter,
          Modelfile.set_template, hfold]
      | some lv =>
        cases lv with
        | multi ls => exact absurd hlic (by simp [goodLicense])
        | single s =>
          have hse : s.isEmpty = false := by
            cases s with
            | nil => exact absurd rfl hlic.1
            | cons c cs => rfl
          simp [optScan, licScan, licText, hse, hte, Modelfile.init,
            Modelfile.set_parameter, Modelfile.set_template, Modelfile.set_license, hfold]
  | some sy =>
    have hye : sy.isEmpty = false := by
      cases sy with
      | nil => exact absurd rfl hsys.1
      | cons c cs => rfl
    cases tpl with
    | none =>
      cases lic with
      | none =>
        simp [optScan, licScan, hye, Modelfile.init, Modelfile.set_parameter,
          Modelfile.set_system, hfold]
      | some lv =>
        cases lv with
        | multi ls => exact absurd hlic (by simp [goodLicense])
        | single s =>
          have hse : s.isEmpty = false := by
            cases s with
            | nil => exact absurd rfl hlic.1
            | cons c cs => rfl
          simp [optScan, licScan, licText, hse, hye, Modelfile.init,
            Modelfile.set_parameter, Modelfile.set_system, Modelfile.set_license, hfold]
    | some t =>
      have hte : t.isEmpty = false := by
        cases t with
        | nil => exact absurd rfl htpl.1
        | cons c cs => rfl
      cases lic with
      | none =>
        simp [optScan, licScan, hye, hte, Modelfile.init, Modelfile.set_parameter,
          Modelfile.set_system, Modelfile.set_template, hfold]
      | some lv =>
        cases lv with
        | multi ls => exact absurd hlic (by simp [goodLicense])
        | single s =>
          have hse : s.isEmpty = false := by
            cases s with
            | nil => exact absurd rfl hlic.1
            | cons c cs => rfl
          simp [optScan, licScan, licText, hse, hye, hte, Modelfile.init,
            Modelfile.set_parameter, Modelfile.set_system, Modelfile.set_template,
            Modelfile.set_license, hfold]

/-- The round-trip law for the proved class of documents. -/
theorem modelfile_roundtrip {mf : Modelfile} (h : GoodDoc mf) :
    parse_modelfile mf.toText = Except.ok mf := by
  have hnl := noNl_serializeLines h
  obtain ⟨hfv, hps, hnd, hsys, htpl, hlic, hads, hmsgs⟩ := h
  have hne : mf.serializeLines ≠ [] := by
    unfold Modelfile.serializeLines
    simp
  simp only [parse_modelfile, Modelfile.toText]
  rw [pySplitChar_joinChar hne hnl]
  obtain ⟨fv, ps, sys, tpl, lic, ads, msgs⟩ := mf
  dsimp only at hfv hps hnd hsys htpl hlic hads hmsgs
  unfold Modelfile.serializeLines
  simp only [List.append_assoc, List.singleton_append, List.cons_append, List.nil_append]
  rw [parseLoop_from _ _ hfv]
  rw [parseLoop_params_seg _ _ _ hps]
  rw [parseLoop_tpl_seg _ _ htpl]
  rw [parseLoop_sys_seg _ _ hsys]
  rw [parseLoop_adapters_seg _ _ _ hads]
  rw [parseLoop_lic_seg _ _ hlic]
  rw [show (msgs.map fun m =>
      "MESSAGE".toList ++ ' ' :: (m.1 ++ ' ' :: formatValue (.pstr m.2))) =
      (msgs.map fun m =>
        "MESSAGE".toList ++ ' ' :: (m.1 ++ ' ' :: formatValue (.pstr m.2))) ++ [] from
    (List.append_nil _).symm]
  rw [parseLoop_msgs_seg _ _ _ hmsgs]
  rw [parseLoop_nil]
  have hfold : ps.foldl (fun d p => dictSet d p.1 p.2) ([] : List (Str × PVal)) = ps := by
    have := foldl_dictSet ps [] hnd (by simp)
    simpa using this
  dsimp only [PState.init, List.nil_append]
  rw [hfold]
  exact rebuild_of_scan fv ps sys tpl lic ads msgs hfv.1 hnd hsys htpl hlic

theorem last_cond_of_concrete {s : Str} {d : Char} (hs : s.getLast? = some d)
    (hd : pyIsSpace d = false) :
    ∀ c, s.getLast? = some c → pyIsSpace c = false := by
  intro c hc
  rw [hs, Option.some.injEq] at hc
  rw [← hc]
  exact hd

/-- What `parse_modelfile` actually returns for `str(negParamDoc)`: the
parameter comes back as the string `"-1"`, not the integer `-1`. -/
theorem parse_negParamDoc :
    parse_modelfile negParamDoc.toText =
      Except.ok ((Modelfile.init "m".toList).set_parameter "p".toList
        (PVal.pstr "-1".toList)) := by
  show rebuildModelfile (parseLoop PState.init (pySplitChar '\n' negParamDoc.toText)) = _
  rw [show pySplitChar '\n' negParamDoc.toText =
      [("FROM".toList ++ ' ' :: "m".toList),
       ("PARAMETER".toList ++ ' ' :: "p -1".toList)] from by decide]
  rw [parseLoop_step _ "FROM".toList "m".toList _ (by decide) (by decide)
        (head_cond_of_cons (by decide) (by decide)) (by decide)
        (@last_cond_of_concrete _ 'm' (by decide) (by decide)) (by decide)]
  rw [parseLoop_step _ "PARAMETER".toList "p -1".toList _ (by decide) (by decide)
        (head_cond_of_cons (by decide) (by decide)) (by decide)
        (@last_cond_of_concrete _ '1' (by decide) (by decide)) (by decide)]
  rw [parseLoop_nil]
  decide

/-- C1 (counterexample): the round-trip law fails as stated.  For the
builder document with the negative integer parameter `p = -1`,
`parse_modelfile(str(D))` is not structurally equal to `D`: the
parameter value is re-parsed as the string `"-1"`, because the parser's
integer coercion accepts only `isdigit` strings, which excludes a
leading minus sign. -/
theorem c1_counterexample :
    parse_modelfile negParamDoc.toText ≠ Except.ok negParamDoc := by
  rw [parse_negParamDoc]
  decide

/-- C1 (amended): for every Modelfile document built through the builder
whose FROM value is a non-empty single-line string fixed by stripping,
whose parameters have distinct space-free names and boolean,
non-negative-integer, or single-line string values (quoted form free of
triple quotes), whose TEMPLATE, SYSTEM and (single-string) LICENSE
values are absent or non-empty safe single-line strings, and whose
adapters and messages are likewise well-formed single-line values,
parsing the serialized text yields exactly the original document. -/
theorem c1_parse_serialize_roundtrip {mf : Modelfile} (h : GoodDoc mf) :
    parse_modelfile mf.toText = Except.ok mf :=
  modelfile_roundtrip h

theorem c1_parse_serialize_roundtrip_witness :
    GoodDoc demoDoc ∧ parse_modelfile demoDoc.toText = Except.ok demoDoc :=
  ⟨by decide, c1_parse_serialize_roundtrip (by decide)⟩

theorem streamIter_eq_filterMap (lines : List String) :
    streamIter lines = (lines.filter (fun l => !l.isEmpty)).filterMap json_loads := by
  induction lines with
  | nil => rfl
  | cons l ls ih =>
    by_cases he : l.isEmpty
    · simp [streamIter, he, List.filter_cons, ih]
    · rw [show streamIter (l :: ls) =
          (match json_loads l with
           | some v => v :: streamIter ls
           | none => streamIter ls) from by simp [streamIter, he]]
      rw [List.filter_cons, if_pos (by simp [he]), List.filterMap_cons]
      cases json_loads l with
      | none => simpa using ih
      | some v => simpa using ih

theorem filterMap_of_map_eq_map_some {α β : Type} {f : α → Option β}
    {xs : List α} {ys : List β} (h : xs.map f = ys.map some) :
    xs.filterMap f = ys := by
  induction xs generalizing ys with
  | nil =>
    cases ys with
    | nil => rfl
    | cons y ys => simp at h
  | cons x xs ih =>
    cases ys with
    | nil => simp at h
    | cons y ys =>
      simp only [List.map_cons, List.cons.injEq] at h
      rw [List.filterMap_cons, h.1, ih h.2]

/-- C4: for every NDJSON input stream whose non-empty lines each decode
successfully, iterating the StreamProcessor yields exactly the ordered
sequence obtained by decoding each non-empty line independently and
concatenating the results. -/
theorem c4_stream_refines_linewise (lines : List String) (objs : List JVal)
    (h : (lines.filter (fun l => !l.isEmpty)).map json_loads = objs.map some) :
    streamIter lines = objs := by
  rw [streamIter_eq_filterMap]
  exact filterMap_of_map_eq_map_some h

theorem c4_stream_refines_linewise_witness :
    ((["\x7b\"a\":1\x7d", "", "\x7b\"b\":2\x7d"] : List String).filter
        (fun l => !l.isEmpty)).map json_loads =
      ([.jobj [("a", .jint 1)], .jobj [("b", .jint 2)]] : List JVal).map some ∧
    streamIter ["\x7b\"a\":1\x7d", "", "\x7b\"b\":2\x7d"] =
      [.jobj [("a", .jint 1)], .jobj [("b", .jint 2)]] :=
  ⟨rfl, c4_stream_refines_linewise _ _ rfl⟩

/-- C5: a non-JSON line between two well-formed lines is skipped without
terminating the decoded sequence — the three-line stream yields exactly
the two objects in order — and in general any line that fails JSON
parsing is skipped and decoding continues with the remaining lines. -/
theorem c5_malformed_line_skipped :
    streamIter ["\x7b\"a\":1\x7d", "XX", "\x7b\"a\":2\x7d"] =
      [.jobj [("a", .jint 1)], .jobj [("a", .jint 2)]] ∧
    json_loads "XX" = none ∧
    (∀ (l : String) (ls : List String), json_loads l = none →
      streamIter (l :: ls) = streamIter ls) := by
  refine ⟨rfl, rfl, fun l ls h => ?_⟩
  by_cases he : l.isEmpty
  · simp [streamIter, he]
  · simp [streamIter, he, h]

theorem c5_malformed_line_skipped_witness :
    json_loads "XX" = none ∧
    streamIter ["XX", "\x7b\"a\":1\x7d"] = streamIter ["\x7b\"a\":1\x7d"] :=
  ⟨rfl, c5_malformed_line_skipped.2.2 "XX" ["\x7b\"a\":1\x7d"] rfl⟩

/-- C10: the error-wrapping branch of `StreamProcessor.__iter__` (and of
`AsyncStreamProcessor.__aiter__`) references the name `OllamaError`,
which `streaming.py` never defines or imports, so evaluating the branch
raises `NameError` and never produces an exception of the `OllamaError`
taxonomy. -/
theorem c10_stream_error_branch_nameerror :
    (∀ m, streamErrorBranch m = .nameError "OllamaError") ∧
    (∀ m, asyncStreamErrorBranch m = .nameError "OllamaError") ∧
    "OllamaError" ∉ streamingModuleGlobals :=
  ⟨fun _ => rfl, fun _ => rfl, by decide⟩

/-- C3 (counterexample): the mapping layer can raise for a syntactically
valid JSON object.  When the recognized key `message` holds a string
rather than an object, `ChatResponse.from_dict` calls `.get` on that
string inside `Message.from_dict`, which raises `AttributeError`. -/
theorem c3_counterexample :
    ChatResponse.from_dict (.jobj [("message", .jstr "hi")]) =
      .error .attributeError := rfl

/-- C3 (amended): for every object payload whose `message` key, when
present, holds an object, all four mapping functions return a typed
record without raising, and every recognized key absent from the
payload is filled with its type's safe default (empty string, False,
None). -/
theorem c3_mappings_total_with_defaults (fs : List (String × JVal))
    (hmsg : ∀ v, lookupField fs "message" = some v → ∃ gs, v = JVal.jobj gs) :
    mappingsTotalWithDefaults fs := by
  refine ⟨⟨_, rfl, ?_, ?_, ?_, ?_⟩, ⟨_, rfl, ?_, ?_, ?_, ?_, ?_, ?_, ?_, ?_, ?_, ?_, ?_, ?_⟩,
      ?_, ⟨_, rfl, ?_, ?_⟩⟩ <;>
    first
    | (intro h; simp [jget, h])
    | skip
  · cases hm : lookupField fs "message" with
    | none =>
      refine ⟨⟨jget fs "model" (.jstr ""), jget fs "created_at" .jnull, none,
           jget fs "done" (.jbool false), jget fs "done_reason" .jnull,
           jget fs "total_duration" .jnull, jget fs "load_duration" .jnull,
           jget fs "prompt_eval_count" .jnull, jget fs "prompt_eval_duration" .jnull,
           jget fs "eval_count" .jnull, jget fs "eval_duration" .jnull⟩, ?_, ?_, ?_, ?_⟩
      · simp [ChatResponse.from_dict, hm]
      · intro _; rfl
      · intro h; simp [jget, h]
      · intro h; simp [jget, h]
    | some mv =>
      obtain ⟨gs, rfl⟩ := hmsg mv hm
      refine ⟨⟨jget fs "model" (.jstr ""), jget fs "created_at" .jnull,
           some ⟨jget gs "role" (.jstr ""), jget gs "content" (.jstr ""),
                 jget gs "images" .jnull, jget gs "tool_calls" .jnull⟩,
           jget fs "done" (.jbool false), jget fs "done_reason" .jnull,
           jget fs "total_duration" .jnull, jget fs "load_duration" .jnull,
           jget fs "prompt_eval_count" .jnull, jget fs "prompt_eval_duration" .jnull,
           jget fs "eval_count" .jnull, jget fs "eval_duration" .jnull⟩, ?_, ?_, ?_, ?_⟩
      · simp [ChatResponse.from_dict, hm, Message.from_dict]
      · intro h; exact Option.noConfusion h
      · intro h; simp [jget, h]
      · intro h; simp [jget, h]
  · intro h1 h2
    simp [EmbedResponse.from_dict, jget, h1, h2, pyTruthy]

theorem c3_mappings_total_with_defaults_witness :
    mappingsTotalWithDefaults [] :=
  c3_mappings_total_with_defaults [] (fun _v h => nomatch h)

/-- C8: decoding the singular payload with `embedding: [0.1, 0.2]` and
the plural payload with `embeddings: [[0.1, 0.2]]` produces the same
normalized embeddings value `[[0.1, 0.2]]`; in general, whenever the
plural key is absent or holds the empty list and the singular key is
present, the singular vector is wrapped into the plural
list-of-vectors form. -/
theorem c8_embed_normalization :
    (∃ r1 r2,
      EmbedResponse.from_dict
        (.jobj [("embedding", .jarr [.jflt (1 / 10), .jflt (2 / 10)])]) = .ok r1 ∧
      EmbedResponse.from_dict
        (.jobj [("embeddings", .jarr [.jarr [.jflt (1 / 10), .jflt (2 / 10)]])]) = .ok r2 ∧
      r1.embeddings = .jarr [.jarr [.jflt (1 / 10), .jflt (2 / 10)]] ∧
      r2.embeddings = r1.embeddings) ∧
    (∀ (fs : List (String × JVal)) (v : JVal) (r : EmbedResponseRec),
      (lookupField fs "embeddings" = none ∨ lookupField fs "embeddings" = some (.jarr [])) →
      lookupField fs "embedding" = some v →
      EmbedResponse.from_dict (.jobj fs) = .ok r →
      r.embeddings = .jarr [v]) := by
  constructor
  · exact ⟨_, _, rfl, rfl, rfl, rfl⟩
  · intro fs v r hplural hsing hr
    rcases hplural with hp | hp <;>
    · simp only [EmbedResponse.from_dict, jget, hp, hsing, Option.getD_none,
        Option.getD_some, pyTruthy, List.isEmpty_nil, Bool.not_false,
        if_pos, Except.ok.injEq] at hr
      rw [← hr]
      simp

theorem c8_embed_normalization_witness :
    lookupField [("embedding", JVal.jint 3)] "embeddings" = none ∧
    lookupField [("embedding", JVal.jint 3)] "embedding" = some (.jint 3) ∧
    EmbedResponse.from_dict (.jobj [("embedding", .jint 3)]) =
      .ok ⟨.jstr "", .jarr [.jint 3], .jnull, .jnull, .jnull⟩ ∧
    (⟨.jstr "", .jarr [.jint 3], .jnull, .jnull, .jnull⟩ : EmbedResponseRec).embeddings =
      .jarr [.jint 3] :=
  ⟨rfl, rfl, rfl,
    c8_embed_normalization.2 [("embedding", JVal.jint 3)] (.jint 3)
      ⟨.jstr "", .jarr [.jint 3], .jnull, .jnull, .jnull⟩ (Or.inl rfl) rfl rfl⟩

/-- C6: for buffered operations, HTTP 404 raises
`OllamaModelNotFoundError`; any other status in the error range raises
`OllamaRequestError` carrying the server's JSON `error` field when the
error body is a JSON object with a string under that key, and the raw
status text otherwise; the two kinds are distinguishable by exception
type. -/
theorem c6_error_taxonomy (status : Nat) (body statusText : String)
    (h4 : 400 ≤ status) (h6 : status < 600) :
    (status = 404 →
      bufferedRequest status body statusText =
        .error (.modelNotFoundError ("Model not found: " ++ statusText))) ∧
    (status ≠ 404 → ∀ s, errField body = some (.jstr s) →
      bufferedRequest status body statusText =
        .error (.requestError ("HTTP error: " ++ s))) ∧
    (status ≠ 404 → errField body = none →
      bufferedRequest status body statusText =
        .error (.requestError ("HTTP error: " ++ statusText))) ∧
    (∀ m1 m2, (OllamaErr.modelNotFoundError m1) ≠ (OllamaErr.requestError m2)) := by
  refine ⟨?_, ?_, ?_, fun m1 m2 h => OllamaErr.noConfusion h⟩
  · intro h404
    simp [bufferedRequest, if_pos (And.intro h4 h6), handleStatusError, h404]
  · intro hne s hs
    rw [bufferedRequest, if_pos (And.intro h4 h6), handleStatusError, if_neg hne]
    unfold errField at hs
    revert hs
    cases hb : json_loads body with
    | none => intro hs; exact absurd hs (by simp)
    | some v =>
      cases v with
      | jobj fs =>
        intro hs
        simp only [] at hs
        simp [hs, pyStrJ]
      | jnull => intro hs; exact absurd hs (by simp)
      | jbool b => intro hs; exact absurd hs (by simp)
      | jint n => intro hs; exact absurd hs (by simp)
      | jflt q => intro hs; exact absurd hs (by simp)
      | jstr s2 => intro hs; exact absurd hs (by simp)
      | jarr l => intro hs; exact absurd hs (by simp)
  · intro hne hnone
    rw [bufferedRequest, if_pos (And.intro h4 h6), handleStatusError, if_neg hne]
    unfold errField at hnone
    revert hnone
    cases hb : json_loads body with
    | none => intro _; rfl
    | some v =>
      cases v with
      | jobj fs => intro hnone; simp only [] at hnone; simp [hnone]
      | jnull => intro _; rfl
      | jbool b => intro _; rfl
      | jint n => intro _; rfl
      | jflt q => intro _; rfl
      | jstr s2 => intro _; rfl
      | jarr l => intro _; rfl

theorem c6_error_taxonomy_witness :
    (400 ≤ 404 ∧ (404 : Nat) < 600 ∧ 400 ≤ 500 ∧ (500 : Nat) < 600 ∧ (500 : Nat) ≠ 404) ∧
    errField "\x7b\"error\":\"boom\"\x7d" = some (.jstr "boom") ∧
    bufferedRequest 404 "{}" "404 Not Found" =
      .error (.modelNotFoundError ("Model not found: " ++ "404 Not Found")) ∧
    bufferedRequest 500 "\x7b\"error\":\"boom\"\x7d" "500 Server Error" =
      .error (.requestError ("HTTP error: " ++ "boom")) :=
  ⟨⟨by decide, by decide, by decide, by decide, by decide⟩, rfl,
    (c6_error_taxonomy 404 "{}" "404 Not Found" (by decide) (by decide)).1 rfl,
    (c6_error_taxonomy 500 "\x7b\"error\":\"boom\"\x7d" "500 Server Error"
      (by decide) (by decide)).2.1 (by decide) "boom" rfl⟩

/-- C7: the convenience boolean operations swallow every classified
error (any constructor of the `OllamaError` taxonomy) and return False,
and return True when the underlying request succeeds. -/
theorem c7_convenience_bools_swallow_errors :
    (∀ e : OllamaErr, copy (.error e) = false ∧ delete (.error e) = false ∧
      blob_exists (.error e) = false) ∧
    (∀ v : JVal, copy (.ok v) = true ∧ delete (.ok v) = true ∧
      blob_exists (.ok v) = true) :=
  ⟨fun _ => ⟨rfl, rfl, rfl⟩, fun _ => ⟨rfl, rfl, rfl⟩⟩

theorem alookup_dictSet_self {κ α : Type} [DecidableEq κ]
    (d : List (κ × α)) (k : κ) (v : α) : alookup (dictSet d k v) k = some v := by
  induction d with
  | nil => simp [dictSet, alookup]
  | cons p rest ih =>
    cases p with
    | mk k2 v2 =>
      by_cases h : k2 = k
      · simp [dictSet, h, alookup]
      · simp [dictSet, h, alookup, ih]

theorem dedupMerge_count_mem (msgs : List ChatMsg) (hist : List ChatMsg)
    (m : ChatMsg) (hm : m ∈ hist) :
    (dedupMerge hist msgs).count m = hist.count m := by
  induction msgs generalizing hist with
  | nil => rfl
  | cons x xs ih =>
    show (dedupMerge (if x ∈ hist then hist else hist ++ [x]) xs).count m = _
    by_cases hx : x ∈ hist
    · rw [if_pos hx, ih hist hm]
    · rw [if_neg hx, ih (hist ++ [x]) (List.mem_append_left _ hm)]
      have hxm : x ≠ m := fun he => hx (he ▸ hm)
      rw [List.count_append, List.count_singleton']
      simp [hxm]

/-- C2: starting from a state without the key, a first non-streaming
chat call with `[u1]` and reply `a1` stores exactly `[u1, a1]`, and a
second call through the same list handle now carrying `[u1, u2]` with
reply `a2` stores exactly `[u1, a1, u2, a2]` — four messages, two per
turn, with `u1` never re-appended; in general a message already in the
stored history (by structural equality) is never appended again by the
dedup-merge. -/
theorem c2_chat_appends_exactly_per_turn
    (st : List (String × List ChatMsg)) (model : String) (pyId : Nat)
    (u1 u2 a1 a2 : ChatMsg)
    (hfresh : alookup st (convKey model pyId) = none)
    (h21 : u2 ≠ u1) (h2a : u2 ≠ a1) :
    alookup (chatNoStream st model pyId [u1] (some a1)) (convKey model pyId) =
      some [u1, a1] ∧
    alookup
      (chatNoStream (chatNoStream st model pyId [u1] (some a1)) model pyId
        [u1, u2] (some a2)) (convKey model pyId) =
      some [u1, a1, u2, a2] ∧
    (∀ (hist msgs : List ChatMsg) (m : ChatMsg), m ∈ hist →
      (dedupMerge hist msgs).count m = hist.count m) := by
  have hst1 : chatNoStream st model pyId [u1] (some a1) =
      dictSet (dictSet st (convKey model pyId) []) (convKey model pyId) [u1, a1] := by
    simp only [chatNoStream, hfresh, Option.isNone_none, if_pos, alookup_dictSet_self,
      Option.getD_some]
    rfl
  have hl1 : alookup (chatNoStream st model pyId [u1] (some a1)) (convKey model pyId) =
      some [u1, a1] := by
    rw [hst1, alookup_dictSet_self]
  refine ⟨hl1, ?_, fun hist msgs m hm => dedupMerge_count_mem msgs hist m hm⟩
  have hmerge : dedupMerge [u1, a1] [u1, u2] = [u1, a1, u2] := by
    show dedupMerge (if u1 ∈ [u1, a1] then [u1, a1] else [u1, a1] ++ [u1]) [u2] = _
    rw [if_pos (List.mem_cons_self u1 [a1])]
    show (if u2 ∈ [u1, a1] then [u1, a1] else [u1, a1] ++ [u2]) = _
    rw [if_neg]
    · rfl
    · intro hmem
      rcases List.mem_cons.mp hmem with h | h
      · exact h21 h
      · rcases List.mem_cons.mp h with h | h
        · exact h2a h
        · exact absurd h (List.not_mem_nil u2)
  generalize hg : chatNoStream st model pyId [u1] (some a1) = st1 at hl1
  simp only [chatNoStream, hl1, Option.isNone_some, Bool.false_eq_true, if_false,
    Option.getD_some, hmerge, alookup_dictSet_self]
  rfl

theorem c2_chat_appends_exactly_per_turn_witness :
    (alookup ([] : List (String × List ChatMsg)) (convKey "m" 1) = none ∧
      (⟨"user", "second"⟩ : ChatMsg) ≠ ⟨"user", "first"⟩ ∧
      (⟨"user", "second"⟩ : ChatMsg) ≠ ⟨"assistant", "reply one"⟩) ∧
    alookup
      (chatNoStream (chatNoStream [] "m" 1 [⟨"user", "first"⟩]
          (some ⟨"assistant", "reply one"⟩)) "m" 1
        [⟨"user", "first"⟩, ⟨"user", "second"⟩] (some ⟨"assistant", "reply two"⟩))
      (convKey "m" 1) =
      some [⟨"user", "first"⟩, ⟨"assistant", "reply one"⟩, ⟨"user", "second"⟩,
        ⟨"assistant", "reply two"⟩] :=
  ⟨⟨rfl, by decide, by decide⟩,
    (c2_chat_appends_exactly_per_turn [] "m" 1 ⟨"user", "first"⟩ ⟨"user", "second"⟩
      ⟨"assistant", "reply one"⟩ ⟨"assistant", "reply two"⟩ rfl (by decide)
      (by decide)).2.1⟩

theorem getLast?_cons_match {α : Type} (a : α) (l : List α) :
    (a :: l).getLast? =
      match l.getLast? with
      | some x => some x
      | none => some a := by
  cases l with
  | nil => rfl
  | cons b t =>
    rw [List.getLast?_cons_cons]
    cases h : (b :: t).getLast? with
    | some x => rfl
    | none =>
      rw [List.getLast?_eq_none_iff] at h
      exact absurd h (by simp)

theorem processLoop_spec (frames : List ChatResponseRec)
    (ys : List ChatResponseRec) (fo : Option ChatResponseRec) :
    frames.foldl
      (fun acc r => if pyTruthy r.done then (acc.1, some r) else (acc.1 ++ [r], acc.2))
      (ys, fo) =
    (ys ++ frames.filter (fun r => !pyTruthy r.done),
     match (frames.filter (fun r => pyTruthy r.done)).getLast? with
     | some x => some x
     | none => fo) := by
  induction frames generalizing ys fo with
  | nil => simp
  | cons r rest ih =>
    simp only [List.foldl_cons, List.filter_cons]
    by_cases hd : pyTruthy r.done
    · rw [if_pos hd, ih ys (some r)]
      simp only [hd, Bool.not_true, Bool.false_eq_true, if_false, if_pos]
      rw [getLast?_cons_match r (rest.filter (fun r => pyTruthy r.done))]
      cases hL : (rest.filter (fun r => pyTruthy r.done)).getLast? with
      | some x => rfl
      | none => rfl
    · rw [if_neg hd, ih (ys ++ [r]) fo]
      have hnd : pyTruthy r.done = false := by simpa using hd
      simp [hnd, List.append_assoc]

/-- C9: the blocking streaming chat yields every non-done frame in
arrival order; a done frame is yielded at most once and only as the
final element; the assistant message is appended to the conversation
exactly when the terminal frame (the last done frame on the wire, when
it carries a message) is yielded, and at most once; and no done frame
other than the last one observed on the wire is ever yielded. -/
theorem c9_streaming_chat_terminal (frames : List ChatResponseRec) :
    (processResponses frames).1 =
      frames.filter (fun r => !pyTruthy r.done) ++
        (match lastDoneFrame frames with
         | some fr => if fr.message.isSome then [fr] else []
         | none => []) ∧
    (∀ r ∈ (processResponses frames).1.dropLast, pyTruthy r.done = false) ∧
    ((processResponses frames).1.filter (fun r => pyTruthy r.done)).length ≤ 1 ∧
    (processResponses frames).2 =
      (match lastDoneFrame frames with
       | some fr =>
         match fr.message with
         | some m => [m.to_dict]
         | none => []
       | none => []) ∧
    (processResponses frames).2.length ≤ 1 := by
  have hmain : processResponses frames =
      (frames.filter (fun r => !pyTruthy r.done) ++
        (match lastDoneFrame frames with
         | some fr => if fr.message.isSome then [fr] else []
         | none => []),
       match lastDoneFrame frames with
       | some fr =>
         match fr.message with
         | some m => [m.to_dict]
         | none => []
       | none => []) := by
    unfold processResponses lastDoneFrame
    rw [processLoop_spec frames [] none]
    cases hL : (frames.filter (fun r => pyTruthy r.done)).getLast? with
    | none => simp
    | some fr =>
      cases hm : fr.message with
      | none => simp [hm]
      | some m => simp [hm]
  have hAll : ∀ r ∈ frames.filter (fun r => !pyTruthy r.done),
      pyTruthy r.done = false := by
    intro r hr
    have := List.of_mem_filter hr
    simpa using this
  refine ⟨congrArg Prod.fst hmain ▸ rfl, ?_, ?_, congrArg Prod.snd hmain ▸ rfl, ?_⟩
  · rw [hmain]
    intro r hr
    cases hL : lastDoneFrame frames with
    | none =>
      rw [hL] at hr
      simp only [List.append_nil] at hr
      exact hAll r (List.dropLast_sublist _ |>.subset hr)
    | some fr =>
      rw [hL] at hr
      by_cases hm : fr.message.isSome
      · simp only [hm, if_pos, List.dropLast_concat] at hr
        exact hAll r hr
      · simp only [hm, Bool.false_eq_true, if_false, List.append_nil] at hr
        exact hAll r (List.dropLast_sublist _ |>.subset hr)
  · rw [hmain]
    simp only [List.filter_append]
    have h1 : (frames.filter (fun r => !pyTruthy r.done)).filter
        (fun r => pyTruthy r.done) = [] := by
      rw [List.filter_eq_nil_iff]
      intro r hr
      simp [hAll r hr]
    rw [h1, List.nil_append]
    cases hL : lastDoneFrame frames with
    | none => simp
    | some fr =>
      by_cases hm : fr.message.isSome
      · simp only [hm, if_pos]
        exact (List.length_filter_le _ _).trans (by simp)
      · simp [hm]
  · rw [hmain]
    cases hL : lastDoneFrame frames with
    | none => simp
    | some fr =>
      cases hm : fr.message with
      | none => simp [hm]
      | some m => simp [hm]

end OllamaClient
